import Mathlib

/-!
Shallow embedding of the `neuron` feed-forward network engine
(`src/tensor.ts`, and the unnamed modules holding `Matrix`, `Random`,
`Trainer` and `Network`).  JavaScript numbers are modelled as real
numbers; `Float64Array` buffers are modelled as `List ℝ`, whose
out-of-range `List.set` is a no-op exactly like an out-of-range typed
array store, and whose out-of-range read yields `undefined`, modelled
by `Option.none` where observable.  Loops become folds over
`List.range`.
-/

namespace Neuron

/-- Pair of activation functions, from `tensor.ts` (`type Activation`). -/
structure Activation where
  activate : ℝ → ℝ
  derive : ℝ → ℝ

/-- `identity` branch of `select` in `tensor.ts`. -/
def identityAct : Activation :=
  ⟨fun x => x, fun _ => 1⟩

/-- `tanh` branch of `select` in `tensor.ts`:
`(Math.exp(x) - Math.exp(-x)) / (Math.exp(x) + Math.exp(-x))`, derivative `1 - x*x`. -/
noncomputable def tanhAct : Activation :=
  ⟨fun x => (Real.exp x - Real.exp (-x)) / (Real.exp x + Real.exp (-x)),
   fun x => 1 - x * x⟩

/-- `binary-step` branch of `select` in `tensor.ts`: `(x >= 0) ? 1 : 0` for both. -/
noncomputable def binaryStepAct : Activation :=
  ⟨fun x => if 0 ≤ x then 1 else 0, fun x => if 0 ≤ x then 1 else 0⟩

/-- `relu` branch of `select` in `tensor.ts`: `(x >= 0) ? x : 0`, derivative `(x >= 0) ? 1 : 0`. -/
noncomputable def reluAct : Activation :=
  ⟨fun x => if 0 ≤ x then x else 0, fun x => if 0 ≤ x then 1 else 0⟩

/-- `select` from `tensor.ts`: string-keyed dispatch, `throw Error("unknown activation")`
on any unrecognized name (modelled as `Except.error`). -/
noncomputable def select (type : String) : Except String Activation :=
  if type = "identity" then .ok identityAct
  else if type = "tanh" then .ok tanhAct
  else if type = "binary-step" then .ok binaryStepAct
  else if type = "relu" then .ok reluAct
  else .error "unknown activation"

/-- Layer buffer from `tensor.ts` (`class Tensor`): the data array plus its activation. -/
structure Tensor where
  data : List ℝ
  activation : Activation

instance : Inhabited Activation := ⟨identityAct⟩

instance : Inhabited Tensor := ⟨⟨[], identityAct⟩⟩

/-- `new Float64Array(n)` for a possibly negative JS length: a negative length
throws a `RangeError`, otherwise the buffer is zero-filled. -/
def float64ArrayNew (n : ℤ) : Except String (List ℝ) :=
  if n < 0 then .error "RangeError" else .ok (List.replicate n.toNat 0)

/-- The `Tensor` constructor from `tensor.ts`: allocates `units + 1` slots,
stores `bias` in the last slot (`data[data.length - 1] = bias`, a silent no-op
on an empty buffer), then resolves the activation by name. -/
noncomputable def tensorMake (units : ℤ) (activation : String) (bias : ℝ) :
    Except String Tensor := do
  let data ← float64ArrayNew (units + 1)
  let act ← select activation
  pure ⟨data.set (data.length - 1) bias, act⟩

/-- Weight matrix from the unnamed `matrix` module (`class Matrix`). -/
structure Matrix where
  inputs : ℕ
  outputs : ℕ
  data : List ℝ

instance : Inhabited Matrix := ⟨⟨0, 0, []⟩⟩

/-- The `Matrix` constructor: `new Float64Array(inputs * outputs)`, zero-filled. -/
def matrixNew (inputs outputs : ℕ) : Matrix :=
  ⟨inputs, outputs, List.replicate (inputs * outputs) 0⟩

/-- `Matrix.get`: `this.data[i + (o * this.inputs)]`, used by the kernel loops
only at in-range linear indices; the out-of-range read (JS `undefined`) is
modelled separately by `Matrix.read`. -/
def Matrix.get (m : Matrix) (i o : ℕ) : ℝ :=
  m.data.getD (i + o * m.inputs) 0

/-- The observable JS read `this.data[i + (o * this.inputs)]`: `none` models
`undefined` for a linear index past the buffer; no bounds check on `i`, `o`. -/
def Matrix.read (m : Matrix) (i o : ℕ) : Option ℝ :=
  m.data.get? (i + o * m.inputs)

/-- `Matrix.set`: `this.data[i + (o * this.inputs)] = value`; a store past the
end of a `Float64Array` is silently dropped, which is `List.set`'s behaviour. -/
def Matrix.set (m : Matrix) (i o : ℕ) (value : ℝ) : Matrix :=
  ⟨m.inputs, m.outputs, m.data.set (i + o * m.inputs) value⟩

/-! ### Generic loop shapes

Every loop in `forward`/`backward` either overwrites a prefix of a buffer
with values independent of that buffer (`writeRange`) or accumulates a sum
(`sumRange`). -/

theorem getD_set_self {α : Type} (l : List α) (a d : α) {i : ℕ} (h : i < l.length) :
    (l.set i a).getD i d = a := by
  simp [List.getD_eq_getElem?_getD, List.getElem?_set_self, h]

theorem getD_set_ne {α : Type} (l : List α) (a d : α) {i j : ℕ} (h : j ≠ i) :
    (l.set j a).getD i d = l.getD i d := by
  simp [List.getD_eq_getElem?_getD, List.getElem?_set_ne h]

theorem getD_out {α : Type} (l : List α) (d : α) {i : ℕ} (h : l.length ≤ i) :
    l.getD i d = d := by
  rw [List.getD_eq_getElem?_getD, List.getElem?_eq_none h]; rfl

theorem getD_set_out {α : Type} (l : List α) (a d : α) {i j : ℕ} (h : l.length ≤ i) :
    (l.set j a).getD i d = l.getD i d := by
  rw [getD_out _ _ (by rw [List.length_set]; exact h), getD_out _ _ h]

/-- `for (j = 0; j < n; j++) l[j] = f j`. -/
def writeRange (n : ℕ) (f : ℕ → ℝ) (l : List ℝ) : List ℝ :=
  (List.range n).foldl (fun cur j => cur.set j (f j)) l

/-- `let s = 0; for (i = 0; i < n; i++) s += f i`. -/
def sumRange (n : ℕ) (f : ℕ → ℝ) : ℝ :=
  (List.range n).foldl (fun s i => s + f i) 0

theorem length_writeRange (n : ℕ) (f : ℕ → ℝ) (l : List ℝ) :
    (writeRange n f l).length = l.length := by
  induction n generalizing l with
  | zero => rfl
  | succ n ih =>
    simp only [writeRange, List.range_succ, List.foldl_append, List.foldl_cons,
      List.foldl_nil] at *
    rw [List.length_set, ih]

theorem getD_writeRange (n : ℕ) (f : ℕ → ℝ) (l : List ℝ) (j : ℕ) :
    (writeRange n f l).getD j 0 =
      if j < n ∧ j < l.length then f j else l.getD j 0 := by
  induction n generalizing l with
  | zero => simp [writeRange]
  | succ n ih =>
    have hlen : ((List.range n).foldl (fun cur j => cur.set j (f j)) l).length
        = l.length := length_writeRange n f l
    simp only [writeRange, List.range_succ, List.foldl_append, List.foldl_cons,
      List.foldl_nil] at *
    by_cases hl : j < l.length
    · by_cases hj : j = n
      · have hx : n < (List.foldl (fun cur j => cur.set j (f j)) l (List.range n)).length := by
          rw [hlen]; omega
        rw [hj, getD_set_self _ _ _ hx]
        rw [if_pos (by omega : n < n + 1 ∧ n < l.length)]
      · rw [getD_set_ne _ _ _ (by omega), ih]
        split_ifs with h1 h2 <;> first | rfl | omega
    · have hout : (List.foldl (fun cur j => cur.set j (f j)) l (List.range n)).length ≤ j := by
        rw [hlen]; omega
      rw [getD_set_out _ _ _ hout, ih]
      simp only [if_neg (by omega : ¬(j < n ∧ j < l.length)),
        if_neg (by omega : ¬(j < n + 1 ∧ j < l.length))]

theorem sumRange_eq_sum (n : ℕ) (f : ℕ → ℝ) :
    sumRange n f = ∑ i ∈ Finset.range n, f i := by
  have h : ∀ (a : ℝ), (List.range n).foldl (fun s i => s + f i) a
      = a + ∑ i ∈ Finset.range n, f i := by
    induction n with
    | zero => intro a; simp
    | succ n ih =>
      intro a
      simp only [List.range_succ, List.foldl_append, List.foldl_cons, List.foldl_nil]
      rw [ih, Finset.sum_range_succ]; ring
  simpa using h 0

theorem getD_eq_getElem {α : Type} (l : List α) (d : α) {i : ℕ} (h : i < l.length) :
    l.getD i d = l[i] := by
  simp [List.getD_eq_getElem?_getD, List.getElem?_eq_getElem h]

/-- Fully overwriting a buffer of length `n` yields the table of `f`. -/
theorem writeRange_full (n : ℕ) (f : ℕ → ℝ) (l : List ℝ) (h : l.length = n) :
    writeRange n f l = (List.range n).map f := by
  apply List.ext_getElem
  · rw [length_writeRange, h, List.length_map, List.length_range]
  · intro i h1 h2
    have hi : i < n := by simpa using h2
    rw [← getD_eq_getElem _ (0 : ℝ) h1, getD_writeRange]
    simp [hi, h, List.getElem_map, List.getElem_range]

/-! ### Network (`class Network`, unnamed network module)

`outputId` is not a field of the source class: it models the allocation
identity of the single `new Array` output buffer the constructor creates,
so that buffer reuse by `forward` is observable in the embedding.  The
buffer starts as an array of JS holes whose contents are never read
before being overwritten; it is modelled zero-filled. -/

structure Network where
  tensors : List Tensor
  matrices : List Matrix
  output : List ℝ
  outputId : ℕ

/-- The `Network` constructor: one `Matrix(tensors[i].data.length,
tensors[i+1].data.length - 1)` per adjacent pair, and the output buffer
`new Array(tensors[last].data.length - 1)`. -/
def networkOfTensors (tensors : List Tensor) (outId : ℕ) : Network :=
  ⟨tensors,
   (List.range (tensors.length - 1)).map (fun i =>
     matrixNew (tensors.getD i default).data.length
       ((tensors.getD (i + 1) default).data.length - 1)),
   List.replicate ((tensors.getD (tensors.length - 1) default).data.length - 1) 0,
   outId⟩

/-- `Network.inputs()`: `this.tensors[0].data.length - 1`. -/
def Network.inputs (net : Network) : ℕ :=
  (net.tensors.getD 0 default).data.length - 1

/-- `Network.outputs()`: `this.tensors[last].data.length - 1`. -/
def Network.outputs (net : Network) : ℕ :=
  (net.tensors.getD (net.tensors.length - 1) default).data.length - 1

/-- The inner sum of `forward`: `sum += matrix.get(i, o) * input.data[i]`. -/
def dotRow (m : Matrix) (o : ℕ) (inp : List ℝ) : ℝ :=
  sumRange m.inputs (fun i => m.get i o * inp.getD i 0)

/-- One kernel of `forward`: `output.data[o] = output.activation.activate(sum)`
for `o < matrix.outputs`. -/
def computeLayer (m : Matrix) (inp : List ℝ) (out : Tensor) : Tensor :=
  ⟨writeRange m.outputs (fun o => out.activation.activate (dotRow m o inp)) out.data,
   out.activation⟩

/-- The `for (k = 0; k < kernels.length; k++)` loop of `forward`; kernel `k`
reads layer `k` and writes layer `k + 1`. -/
def runKernels (matrices : List Matrix) (tensors : List Tensor) : List Tensor :=
  (List.range matrices.length).foldl (fun ts k =>
    ts.set (k + 1)
      (computeLayer (matrices.getD k default) (ts.getD k default).data
        (ts.getD (k + 1) default))) tensors

/-- `Network.forward`: loads the input into layer 0, feeds the kernels in
order, copies the first `output.length` values of the last kernel's output
layer into the reusable output buffer and returns that buffer. -/
def Network.forward (net : Network) (input : List ℝ) : Network × List ℝ :=
  let t0 := net.tensors.getD 0 default
  let loaded := net.tensors.set 0
    ⟨writeRange input.length (fun j => input.getD j 0) t0.data, t0.activation⟩
  let fed := runKernels net.matrices loaded
  let lastData := (fed.getD net.matrices.length default).data
  let out := writeRange net.output.length (fun o => lastData.getD o 0) net.output
  (⟨fed, net.matrices, out, net.outputId⟩, out)

/-- Shape well-formedness of a network state; established by the constructor
and preserved by `forward`/`backward` (no buffer is ever resized). -/
def Network.Wf (net : Network) : Prop :=
  0 < net.tensors.length ∧
  net.matrices.length = net.tensors.length - 1 ∧
  (∀ k < net.tensors.length, 0 < (net.tensors.getD k default).data.length) ∧
  (∀ k < net.matrices.length,
    (net.matrices.getD k default).inputs = (net.tensors.getD k default).data.length) ∧
  (∀ k < net.matrices.length,
    (net.matrices.getD k default).outputs = (net.tensors.getD (k + 1) default).data.length - 1) ∧
  (∀ k < net.matrices.length,
    (net.matrices.getD k default).data.length =
      (net.matrices.getD k default).inputs * (net.matrices.getD k default).outputs) ∧
  net.output.length = (net.tensors.getD (net.tensors.length - 1) default).data.length - 1

/-- Characterization of the kernel loop: layer `0` is untouched, layers past
the processed prefix are untouched, and each processed layer `j` holds the
kernel computation applied to the final value of layer `j - 1`. -/
theorem runKernels_upTo (matrices : List Matrix) (tensors : List Tensor)
    (htl : matrices.length < tensors.length) :
    ∀ K, K ≤ matrices.length →
      ((List.range K).foldl (fun ts k =>
          ts.set (k + 1)
            (computeLayer (matrices.getD k default) (ts.getD k default).data
              (ts.getD (k + 1) default))) tensors).length = tensors.length ∧
      (∀ j, (j = 0 ∨ K + 1 ≤ j) →
        ((List.range K).foldl (fun ts k =>
            ts.set (k + 1)
              (computeLayer (matrices.getD k default) (ts.getD k default).data
                (ts.getD (k + 1) default))) tensors).getD j default = tensors.getD j default) ∧
      (∀ j, 1 ≤ j → j ≤ K →
        ((List.range K).foldl (fun ts k =>
            ts.set (k + 1)
              (computeLayer (matrices.getD k default) (ts.getD k default).data
                (ts.getD (k + 1) default))) tensors).getD j default =
          computeLayer (matrices.getD (j - 1) default)
            (((List.range K).foldl (fun ts k =>
                ts.set (k + 1)
                  (computeLayer (matrices.getD k default) (ts.getD k default).data
                    (ts.getD (k + 1) default))) tensors).getD (j - 1) default).data
            (tensors.getD j default)) := by
  intro K
  induction K with
  | zero => exact fun _ => ⟨rfl, fun j _ => rfl, fun j h1 h2 => by omega⟩
  | succ K ih =>
    intro hK
    obtain ⟨ihlen, ihfix, ihval⟩ := ih (by omega)
    simp only [List.range_succ, List.foldl_append, List.foldl_cons, List.foldl_nil]
    set res := (List.range K).foldl (fun ts k =>
      ts.set (k + 1)
        (computeLayer (matrices.getD k default) (ts.getD k default).data
          (ts.getD (k + 1) default))) tensors with hres
    refine ⟨by rw [List.length_set, ihlen], ?_, ?_⟩
    · intro j hj
      rw [getD_set_ne _ _ _ (by omega)]
      exact ihfix j (by omega)
    · intro j h1 h2
      by_cases hj : j = K + 1
      · subst hj
        have hlt : K + 1 < res.length := by rw [ihlen]; omega
        rw [getD_set_self _ _ _ hlt]
        rw [getD_set_ne _ _ _ (by omega : K + 1 ≠ K + 1 - 1)]
        rw [ihfix (K + 1) (by omega), Nat.add_sub_cancel]
      · have hj2 : j ≤ K := by omega
        rw [getD_set_ne _ _ _ (by omega)]
        rw [getD_set_ne _ _ _ (by omega : K + 1 ≠ j - 1)]
        exact ihval j h1 hj2

/-- Layer 0 after the input-loading loop of `forward`. -/
def loadedList (net : Network) (input : List ℝ) : List Tensor :=
  net.tensors.set 0
    ⟨writeRange input.length (fun j => input.getD j 0) (net.tensors.getD 0 default).data,
     (net.tensors.getD 0 default).activation⟩

theorem forward_fst_tensors (net : Network) (input : List ℝ) :
    (net.forward input).1.tensors = runKernels net.matrices (loadedList net input) := rfl

theorem forward_fst_matrices (net : Network) (input : List ℝ) :
    (net.forward input).1.matrices = net.matrices := rfl

theorem forward_fst_outputId (net : Network) (input : List ℝ) :
    (net.forward input).1.outputId = net.outputId := rfl

theorem forward_fst_output (net : Network) (input : List ℝ) :
    (net.forward input).1.output = (net.forward input).2 := rfl

theorem forward_snd (net : Network) (input : List ℝ) :
    (net.forward input).2 = writeRange net.output.length
      (fun o => ((runKernels net.matrices (loadedList net input)).getD
        net.matrices.length default).data.getD o 0) net.output := rfl

theorem runKernels_length (ms : List Matrix) (ts : List Tensor)
    (htl : ms.length < ts.length) : (runKernels ms ts).length = ts.length :=
  (runKernels_upTo ms ts htl ms.length le_rfl).1

theorem runKernels_getD_fix (ms : List Matrix) (ts : List Tensor)
    (htl : ms.length < ts.length) (j : ℕ) (hj : j = 0 ∨ ms.length + 1 ≤ j) :
    (runKernels ms ts).getD j default = ts.getD j default :=
  (runKernels_upTo ms ts htl ms.length le_rfl).2.1 j hj

theorem runKernels_getD_val (ms : List Matrix) (ts : List Tensor)
    (htl : ms.length < ts.length) (j : ℕ) (h1 : 1 ≤ j) (h2 : j ≤ ms.length) :
    (runKernels ms ts).getD j default =
      computeLayer (ms.getD (j - 1) default)
        ((runKernels ms ts).getD (j - 1) default).data (ts.getD j default) :=
  (runKernels_upTo ms ts htl ms.length le_rfl).2.2 j h1 h2

theorem loadedList_getD_zero (net : Network) (input : List ℝ) (hpos : 0 < net.tensors.length) :
    (loadedList net input).getD 0 default =
      ⟨writeRange input.length (fun j => input.getD j 0) (net.tensors.getD 0 default).data,
       (net.tensors.getD 0 default).activation⟩ :=
  getD_set_self _ _ _ hpos

theorem loadedList_getD_ne (net : Network) (input : List ℝ) (j : ℕ) (hj : j ≠ 0) :
    (loadedList net input).getD j default = net.tensors.getD j default :=
  getD_set_ne _ _ _ (fun h => hj h.symm)

theorem loadedList_length (net : Network) (input : List ℝ) :
    (loadedList net input).length = net.tensors.length := List.length_set ..

/-- The property claim C1 states of one `forward` call: the input is copied
into layer 0, every computed unit of layer `k + 1` is the activated weighted
sum over the whole of layer `k` (bias slot included), the bias slot of every
computed layer is not written, and the returned sequence is the first
`outputs()` values of the last layer. -/
def ForwardSpec (net : Network) (input : List ℝ) : Prop :=
  (∀ j < net.inputs,
    (((net.forward input).1.tensors.getD 0 default).data.getD j 0) = input.getD j 0) ∧
  (∀ k < net.matrices.length, ∀ o < (net.matrices.getD k default).outputs,
    (((net.forward input).1.tensors.getD (k + 1) default).data.getD o 0) =
      (net.tensors.getD (k + 1) default).activation.activate
        (∑ i ∈ Finset.range (net.matrices.getD k default).inputs,
          (net.matrices.getD k default).get i o *
            (((net.forward input).1.tensors.getD k default).data.getD i 0))) ∧
  (∀ k < net.matrices.length,
    (((net.forward input).1.tensors.getD (k + 1) default).data.getD
        ((net.tensors.getD (k + 1) default).data.length - 1) 0) =
      (net.tensors.getD (k + 1) default).data.getD
        ((net.tensors.getD (k + 1) default).data.length - 1) 0) ∧
  (net.forward input).2 = (List.range net.outputs).map
    (fun o => (((net.forward input).1.tensors.getD (net.tensors.length - 1) default).data.getD o 0))

/-- **C1.** For every well-formed network and input of length `inputs()`,
`Network.forward` copies `input[j]` into slot `j` of the first layer buffer,
then for each kernel in order and each output unit `o < matrix.outputs`
computes the weighted sum over all `i < matrix.inputs` (the input layer's
bias slot included) and stores the activated sum, never writes the output
layer's bias slot, and returns the last layer's first `outputs()` values. -/
theorem claim1_forward_semantics (net : Network) (input : List ℝ)
    (hwf : net.Wf) (hlen : input.length = net.inputs) : ForwardSpec net input := by
  obtain ⟨hpos, hmc, hsz, hmins, hmouts, hmdata, houtlen⟩ := hwf
  have htl : net.matrices.length < (loadedList net input).length := by
    rw [loadedList_length]; omega
  have hsz0 : 0 < (net.tensors.getD 0 default).data.length := hsz 0 hpos
  refine ⟨?_, ?_, ?_, ?_⟩
  · intro j hj
    rw [forward_fst_tensors, runKernels_getD_fix _ _ htl 0 (Or.inl rfl),
      loadedList_getD_zero net input hpos]
    have : j < input.length ∧ j < (net.tensors.getD 0 default).data.length := by
      unfold Network.inputs at hlen hj; omega
    rw [getD_writeRange, if_pos this]
  · intro k hk o ho
    rw [forward_fst_tensors, runKernels_getD_val _ _ htl (k + 1) (by omega) (by omega),
      Nat.add_sub_cancel, loadedList_getD_ne net input (k + 1) (by omega)]
    have hob : o < (net.tensors.getD (k + 1) default).data.length := by
      rw [hmouts k hk] at ho; omega
    simp only [computeLayer]
    rw [getD_writeRange, if_pos ⟨ho, hob⟩, dotRow, sumRange_eq_sum]
  · intro k hk
    rw [forward_fst_tensors, runKernels_getD_val _ _ htl (k + 1) (by omega) (by omega),
      Nat.add_sub_cancel, loadedList_getD_ne net input (k + 1) (by omega)]
    simp only [computeLayer]
    rw [getD_writeRange,
      if_neg (by rw [hmouts k hk]; omega :
        ¬((net.tensors.getD (k + 1) default).data.length - 1 <
            (net.matrices.getD k default).outputs ∧
          (net.tensors.getD (k + 1) default).data.length - 1 <
            (net.tensors.getD (k + 1) default).data.length))]
  · rw [forward_snd, writeRange_full _ _ _ rfl, forward_fst_tensors]
    have hK : net.matrices.length = net.tensors.length - 1 := hmc
    have hout2 : net.output.length = net.outputs := houtlen
    rw [hout2, hK]

/-- Concrete two-layer network (layer sizes 3 and 2, identity activations,
bias slots holding 1) used to instantiate several theorems. -/
def exNet : Network :=
  networkOfTensors [⟨[0, 0, 1], identityAct⟩, ⟨[0, 1], identityAct⟩] 0

theorem exNet_wf : exNet.Wf := by
  unfold exNet networkOfTensors Network.Wf
  refine ⟨by decide, by decide, ?_, ?_, ?_, ?_, by decide⟩ <;> decide

/-- Witness for C1 at the concrete network `exNet` and input `[5, 7]`. -/
theorem claim1_witness :
    exNet.Wf ∧ ([(5 : ℝ), 7].length = exNet.inputs) ∧ ForwardSpec exNet [5, 7] :=
  ⟨exNet_wf, rfl, claim1_forward_semantics exNet [5, 7] exNet_wf rfl⟩

/-! ### C3: there is no shape validation anywhere in `forward`/`backward` -/

/-- **C3 counterexample.** `exNet` has `inputs() = 2`, yet `forward([5,5,5])`
does not fail: it completes, returns a full-size output, and copies the third
input value over the bias slot of layer 0 (slot 2), leaving it `5 ≠ 1`.
No `ShapeMismatch` error exists in the source. -/
theorem claim3_counterexample :
    [(5 : ℝ), 5, 5].length ≠ exNet.inputs ∧
    ((exNet.forward [5, 5, 5]).1.tensors.getD 0 default).data = [5, 5, 5] ∧
    ((exNet.forward [5, 5, 5]).1.tensors.getD 0 default).data.getD 2 0 ≠ (1 : ℝ) ∧
    (exNet.forward [5, 5, 5]).2.length = 1 := by
  refine ⟨by decide, rfl, ?_, rfl⟩
  show (5 : ℝ) ≠ 1
  norm_num

/-- **C3 amended.** `forward` validates nothing: with an input at least as
long as the first layer buffer it completes with a full-size result and the
first layer's bias slot is overwritten with the corresponding input value. -/
theorem claim3_amended_no_validation (net : Network) (input : List ℝ) (hwf : net.Wf)
    (hover : (net.tensors.getD 0 default).data.length ≤ input.length) :
    ((net.forward input).1.tensors.getD 0 default).data.getD
        ((net.tensors.getD 0 default).data.length - 1) 0 =
      input.getD ((net.tensors.getD 0 default).data.length - 1) 0 ∧
    (net.forward input).2.length = net.output.length := by
  obtain ⟨hpos, hmc, hsz, hmins, hmouts, hmdata, houtlen⟩ := hwf
  have htl : net.matrices.length < (loadedList net input).length := by
    rw [loadedList_length]; omega
  have hsz0 : 0 < (net.tensors.getD 0 default).data.length := hsz 0 hpos
  constructor
  · rw [forward_fst_tensors, runKernels_getD_fix _ _ htl 0 (Or.inl rfl),
      loadedList_getD_zero net input hpos]
    rw [getD_writeRange, if_pos (by omega :
      (net.tensors.getD 0 default).data.length - 1 < input.length ∧
      (net.tensors.getD 0 default).data.length - 1 <
        (net.tensors.getD 0 default).data.length)]
  · rw [forward_snd, length_writeRange]

/-- Witness for the amended C3 at `exNet` with the over-long input `[5,5,5]`. -/
theorem claim3_amended_witness :
    exNet.Wf ∧ ((exNet.tensors.getD 0 default).data.length ≤ [(5 : ℝ), 5, 5].length) ∧
    (((exNet.forward [5, 5, 5]).1.tensors.getD 0 default).data.getD
        ((exNet.tensors.getD 0 default).data.length - 1) 0 =
      [(5 : ℝ), 5, 5].getD ((exNet.tensors.getD 0 default).data.length - 1) 0 ∧
    (exNet.forward [5, 5, 5]).2.length = exNet.output.length) :=
  ⟨exNet_wf, by decide,
   claim3_amended_no_validation exNet [5, 5, 5] exNet_wf (by decide)⟩

/-! ### C7: `forward` returns the single reusable output buffer, not a copy -/

/-- `exNet` with a nonzero weight `w(0,0) = 1` (a state the trainer's
in-place `matrix.set` writes produce), so that different inputs yield
different outputs. -/
def exNetW : Network :=
  { exNet with matrices := [(matrixNew 3 1).set 0 0 1] }

/-- **C7 counterexample.** Both calls return the buffer with the same
allocation identity (`outputId` is the construction-time allocation and
`forward` allocates nothing), the returned sequence is exactly the stored
buffer, and the two calls' values differ — so the second call overwrites the
first call's result in place, and no fresh copy is ever returned. -/
theorem claim7_counterexample :
    (exNetW.forward [1, 2]).1.outputId = exNetW.outputId ∧
    ((exNetW.forward [1, 2]).1.forward [3, 4]).1.outputId = exNetW.outputId ∧
    (exNetW.forward [1, 2]).2 = (exNetW.forward [1, 2]).1.output ∧
    ((exNetW.forward [1, 2]).1.forward [3, 4]).2 =
      ((exNetW.forward [1, 2]).1.forward [3, 4]).1.output ∧
    (exNetW.forward [1, 2]).2 ≠ ((exNetW.forward [1, 2]).1.forward [3, 4]).2 := by
  refine ⟨rfl, rfl, rfl, rfl, ?_⟩
  have h1 : (exNetW.forward [1, 2]).2 = [(0 + 1 * 1 + 0 * 2 + 0 * 1 : ℝ)] := rfl
  have h2 : ((exNetW.forward [1, 2]).1.forward [3, 4]).2 =
      [(0 + 1 * 3 + 0 * 4 + 0 * 1 : ℝ)] := rfl
  rw [h1, h2]
  intro h
  have := List.head_eq_of_cons_eq h
  norm_num at this

/-- **C7 amended.** The returned sequence is the network's construction-time
output buffer (`outputId` never changes and the returned list is the stored
`output` field), overwritten in place on each call; mutating that buffer
corrupts nothing else: the layer buffers and the values of a subsequent
`forward` do not depend on the output buffer's contents. -/
theorem claim7_amended_buffer_reuse (net : Network) (input buf : List ℝ)
    (hbuf : buf.length = net.output.length) :
    ({ net with output := buf } : Network).forward input =
      (((net.forward input).1, (net.forward input).2) : Network × List ℝ) ∧
    (net.forward input).1.outputId = net.outputId ∧
    (net.forward input).1.output = (net.forward input).2 := by
  have h2 : (({ net with output := buf } : Network).forward input).2
      = (net.forward input).2 := by
    rw [forward_snd, forward_snd]
    rw [writeRange_full _ _ _ rfl, writeRange_full _ _ _ rfl]
    rw [show ({ net with output := buf } : Network).output = buf from rfl, hbuf]
    rfl
  refine ⟨?_, rfl, rfl⟩
  have hA : (({ net with output := buf } : Network).forward input).1 =
      Network.mk (runKernels net.matrices (loadedList net input)) net.matrices
        ((({ net with output := buf } : Network).forward input).2) net.outputId := rfl
  have hB : (net.forward input).1 =
      Network.mk (runKernels net.matrices (loadedList net input)) net.matrices
        ((net.forward input).2) net.outputId := rfl
  have h1 : (({ net with output := buf } : Network).forward input).1
      = (net.forward input).1 := by rw [hA, hB, h2]
  calc ({ net with output := buf } : Network).forward input
      = ((({ net with output := buf } : Network).forward input).1,
         (({ net with output := buf } : Network).forward input).2) := rfl
    _ = (((net.forward input).1, (net.forward input).2) : Network × List ℝ) := by
        rw [h1, h2]

/-- Witness for the amended C7 at `exNetW` with a caller-mutated buffer `[9]`. -/
theorem claim7_amended_witness :
    ([(9 : ℝ)].length = exNetW.output.length) ∧
    (({ exNetW with output := [(9 : ℝ)] } : Network).forward [1, 2] =
      (((exNetW.forward [1, 2]).1, (exNetW.forward [1, 2]).2) : Network × List ℝ) ∧
    (exNetW.forward [1, 2]).1.outputId = exNetW.outputId ∧
    (exNetW.forward [1, 2]).1.output = (exNetW.forward [1, 2]).2) :=
  ⟨by decide, claim7_amended_buffer_reuse exNetW [1, 2] [9] (by decide)⟩

/-! ### C8: matrix and buffer access is unchecked -/

theorem set_of_length_le {α : Type} (l : List α) (a : α) {n : ℕ} (h : l.length ≤ n) :
    l.set n a = l := by
  induction l generalizing n with
  | nil => rfl
  | cons x xs ih =>
    cases n with
    | zero => simp at h
    | succ n =>
      simp only [List.set]
      rw [ih (by simpa using h)]

theorem matrix_read_in_range (m : Matrix) (i o : ℕ) (h : i + o * m.inputs < m.data.length) :
    m.read i o = some (m.data.getD (i + o * m.inputs) 0) := by
  rw [Matrix.read, List.get?_eq_getElem?, List.getElem?_eq_getElem h,
    getD_eq_getElem _ _ h]

/-- Concrete 2×2 matrix with data `[1, 2, 3, 4]`, built by the constructor
plus in-range `set` calls (linear layout: `(0,0) (1,0) (0,1) (1,1)`). -/
def exMat : Matrix :=
  ((((matrixNew 2 2).set 0 0 1).set 1 0 2).set 0 1 3).set 1 1 4

/-- **C8 counterexample.** `exMat.inputs = 2`, so `i = 2` is outside
`[0, inputs)`; yet `get(2, 0)` does not fail: it silently aliases the element
at `(0, 1)` (linear index `2`), an out-of-range `o` read yields `undefined`
(`none`) instead of an error, and an out-of-range store is silently dropped.
No `IndexOutOfRange` error exists in the source. -/
theorem claim8_counterexample :
    exMat.read 2 0 = some 3 ∧
    exMat.read 2 0 = exMat.read 0 1 ∧
    exMat.read 0 2 = none ∧
    (exMat.set 0 2 9).data = exMat.data := by
  refine ⟨rfl, rfl, rfl, ?_⟩
  show exMat.data.set 4 9 = exMat.data
  exact set_of_length_le _ _ (by decide)

/-- **C8 amended.** `Matrix.get`/`Matrix.set` compute the linear index
`i + o*inputs` with no bounds check: an out-of-range `i` whose linear index
still lands inside the buffer silently reads the aliased element; a linear
index past the buffer reads `undefined` (`none`) and a store there is a
silent no-op.  Nothing fails with `IndexOutOfRange`. -/
theorem claim8_amended_unchecked_access (m : Matrix) (i o : ℕ) (v : ℝ) :
    (m.inputs ≤ i → i + o * m.inputs < m.data.length →
      m.read i o = some (m.data.getD (i + o * m.inputs) 0)) ∧
    (m.data.length ≤ i + o * m.inputs →
      m.read i o = none ∧ (m.set i o v).data = m.data) := by
  constructor
  · intro _ h2
    exact matrix_read_in_range m i o h2
  · intro h
    refine ⟨?_, set_of_length_le _ _ h⟩
    rw [Matrix.read, List.get?_eq_getElem?, List.getElem?_eq_none h]

/-- Witness for the amended C8: the silent-aliasing branch at `exMat`,
`i = 2 ≥ inputs`, `o = 0`. -/
theorem claim8_amended_witness :
    (exMat.inputs ≤ 2 ∧ 2 + 0 * exMat.inputs < exMat.data.length) ∧
    exMat.read 2 0 = some (exMat.data.getD (2 + 0 * exMat.inputs) 0) :=
  ⟨⟨by decide, by decide⟩,
   (claim8_amended_unchecked_access exMat 2 0 9).1 (by decide) (by decide)⟩

/-! ### C9: construction-time validation -/

/-- `new Array(n)` for a possibly negative JS length (the output buffer of the
`Network` constructor): a negative length throws `RangeError`; the slots are
holes that `forward` always writes before returning, so the buffer is modelled
zero-filled. -/
def arrayNew (n : ℤ) : Except String (List ℝ) :=
  if n < 0 then .error "RangeError" else .ok (List.replicate n.toNat 0)

/-- The `Matrix` constructor on the raw JS lengths the `Network` constructor
passes it: `new Float64Array(inputs * outputs)` throws `RangeError` when the
product is negative (`outputs` is `tensors[i+1].data.length - 1`, which is
`-1` on an empty tensor). On success the stored loop bounds behave as the
clamped values, every loop over them being `0 ≤` a bound. -/
def matrixNewJS (inputs outputs : ℤ) : Except String Matrix :=
  if inputs * outputs < 0 then .error "RangeError"
  else .ok ⟨inputs.toNat, outputs.toNat, List.replicate (inputs * outputs).toNat 0⟩

/-- The matrix loop of the `Network` constructor: `this.matrices[i] = new
Matrix(tensors[i].data.length, tensors[i+1].data.length - 1)` for
`i = 0 .. n-1` in order, the first throwing allocation propagating. -/
def matricesJS (ts : List Tensor) : ℕ → Except String (List Matrix)
  | 0 => .ok []
  | n + 1 =>
    match matricesJS ts n with
    | .error e => .error e
    | .ok ms =>
      match matrixNewJS ((ts.getD n default).data.length : ℤ)
          (((ts.getD (n + 1) default).data.length : ℤ) - 1) with
      | .error e => .error e
      | .ok m => .ok (ms ++ [m])

/-- The `Network` constructor with its JS failure modes: on an empty layer
list `this.tensors[this.tensors.length - 1]` is `undefined` and reading
`.data` throws a `TypeError`; the output buffer `new
Array(tensors[last].data.length - 1)` throws `RangeError` when the last
tensor is empty; and each `new Matrix(...)` can throw `RangeError` in turn
(`matricesJS`). The allocations run in source order: output buffer first,
then the matrices. -/
def networkNewJS (ts : List Tensor) (outId : ℕ) : Except String Network :=
  if ts.length = 0 then .error "TypeError"
  else
    match arrayNew (((ts.getD (ts.length - 1) default).data.length : ℤ) - 1) with
    | .error e => .error e
    | .ok out =>
      match matricesJS ts (ts.length - 1) with
      | .error e => .error e
      | .ok ms => .ok ⟨ts, ms, out, outId⟩

/-- Constructs the layer tensors of `Network.new(layerSpecs)` in order; the
first failing `Tensor` constructor propagates (JS `throw`). -/
noncomputable def tensorsMake : List (ℤ × String × ℝ) → Except String (List Tensor)
  | [] => .ok []
  | s :: rest =>
    match tensorMake s.1 s.2.1 s.2.2 with
    | .error e => .error e
    | .ok t =>
      match tensorsMake rest with
      | .error e => .error e
      | .ok ts => .ok (t :: ts)

/-- `Network.new(layerSpecs)` of the public surface: build each layer’s
`Tensor`, then run the `Network` constructor, whose own allocations can
throw (`networkNewJS`). -/
noncomputable def networkNew (specs : List (ℤ × String × ℝ)) (outId : ℕ) :
    Except String Network :=
  match tensorsMake specs with
  | .error e => .error e
  | .ok ts => networkNewJS ts outId

/-- A successful `tensorMake` returns a buffer of `units + 1` slots
(`0` of them when `units = -1`). -/
theorem tensorMake_ok_length (units : ℤ) (name : String) (bias : ℝ) (t : Tensor)
    (h : tensorMake units name bias = .ok t) :
    t.data.length = (units + 1).toNat := by
  have hshow : tensorMake units name bias =
      (float64ArrayNew (units + 1)).bind (fun data =>
        (select name).bind (fun act =>
          pure ⟨data.set (data.length - 1) bias, act⟩)) := rfl
  by_cases hneg : units + 1 < 0
  · have hbad : tensorMake units name bias = .error "RangeError" := by
      rw [hshow]
      rw [show float64ArrayNew (units + 1) = .error "RangeError" from by
        rw [float64ArrayNew, if_pos hneg]]
      rfl
    rw [hbad] at h
    exact absurd h (by simp)
  · have hf : float64ArrayNew (units + 1) =
        .ok (List.replicate (units + 1).toNat (0 : ℝ)) := by
      rw [float64ArrayNew, if_neg hneg]
    cases hsel : select name with
    | error e =>
      have hbad : tensorMake units name bias = .error e := by
        rw [hshow, hf, hsel]; rfl
      rw [hbad] at h
      exact absurd h (by simp)
    | ok act =>
      have hgood : tensorMake units name bias =
          .ok ⟨(List.replicate (units + 1).toNat (0 : ℝ)).set
            ((List.replicate (units + 1).toNat (0 : ℝ)).length - 1) bias, act⟩ := by
        rw [hshow, hf, hsel]
        rfl
      rw [hgood] at h
      injection h with h2
      rw [← h2]
      simp [List.length_set, List.length_replicate]

/-- **C9 counterexample.** A layer spec with the non-positive unit count `0`
and a recognized activation passes the whole construction — the `Tensor`
constructor and the `Network` constructor — yielding a bias-only layer
buffer `[1]`: unit counts are not validated. -/
theorem claim9_counterexample :
    networkNew [((0 : ℤ), "identity", (1 : ℝ))] 0 =
      .ok ⟨[⟨[(1 : ℝ)], identityAct⟩], [], [], 0⟩ := rfl

/-- **C9 amended.** Construction fails fast on an unknown activation name
(the fixed set is `identity`, `tanh`, `binary-step`, `relu`); a recognized
name constructs a `Tensor` for every unit count `≥ -1` — including the
non-positive counts `0` and `-1`, which are not rejected — and only
`units ≤ -2` fails (a negative typed-array length, a `RangeError`, not a
dedicated validation). `Network.new` succeeds whenever every layer
constructs and every unit count is `≥ 0`; but when the last layer has
`units = -1` (an empty tensor) the `Network` constructor itself throws
`RangeError` at `new Array(tensors[last].data.length - 1)`. -/
theorem claim9_amended_construction (units : ℤ) (name : String) (bias : ℝ)
    (specs : List (ℤ × String × ℝ)) (outId : ℕ) :
    (name ≠ "identity" → name ≠ "tanh" → name ≠ "binary-step" → name ≠ "relu" →
      -1 ≤ units → tensorMake units name bias = .error "unknown activation") ∧
    (units + 1 < 0 → tensorMake units name bias = .error "RangeError") ∧
    (-1 ≤ units →
      name = "identity" ∨ name = "tanh" ∨ name = "binary-step" ∨ name = "relu" →
      ∃ t, tensorMake units name bias = .ok t) ∧
    (specs ≠ [] → (∀ s ∈ specs, ∃ t, tensorMake s.1 s.2.1 s.2.2 = .ok t) →
      (∀ s ∈ specs, 0 ≤ s.1) →
      ∃ net, networkNew specs outId = .ok net) ∧
    (specs ≠ [] → (∀ s ∈ specs, ∃ t, tensorMake s.1 s.2.1 s.2.2 = .ok t) →
      (specs.getD (specs.length - 1) default).1 = -1 →
      networkNew specs outId = .error "RangeError") := by
  have hshow : tensorMake units name bias =
      (float64ArrayNew (units + 1)).bind (fun data =>
        (select name).bind (fun act =>
          pure ⟨data.set (data.length - 1) bias, act⟩)) := rfl
  have hlift : ∀ sp : List (ℤ × String × ℝ),
      (∀ s ∈ sp, ∃ t, tensorMake s.1 s.2.1 s.2.2 = .ok t) →
      ∃ ts, tensorsMake sp = .ok ts ∧ ts.length = sp.length ∧
        ∀ k, k < sp.length →
          (ts.getD k default).data.length = ((sp.getD k default).1 + 1).toNat := by
    intro sp
    induction sp with
    | nil => exact fun _ => ⟨[], rfl, rfl, fun k hk => absurd hk (by simp)⟩
    | cons s rest ih =>
      intro h
      obtain ⟨t, ht⟩ := h s (List.mem_cons_self s rest)
      obtain ⟨ts, hts, hlen, hk⟩ := ih (fun x hx => h x (List.mem_cons_of_mem s hx))
      refine ⟨t :: ts, by simp only [tensorsMake, ht, hts], by simp [hlen], ?_⟩
      intro k hkk
      cases k with
      | zero =>
        show t.data.length = (s.1 + 1).toNat
        exact tensorMake_ok_length s.1 s.2.1 s.2.2 t ht
      | succ k =>
        show (ts.getD k default).data.length = ((rest.getD k default).1 + 1).toNat
        refine hk k ?_
        simp only [List.length_cons] at hkk
        omega
  refine ⟨?_, ?_, ?_, ?_, ?_⟩
  · intro h1 h2 h3 h4 h5
    have hf : float64ArrayNew (units + 1) =
        .ok (List.replicate (units + 1).toNat 0) := by
      rw [float64ArrayNew, if_neg (by omega : ¬(units + 1 < 0))]
    have hs : select name = .error "unknown activation" := by
      rw [select, if_neg h1, if_neg h2, if_neg h3, if_neg h4]
    rw [hshow, hf, hs]
    rfl
  · intro h
    have hf : float64ArrayNew (units + 1) = .error "RangeError" := by
      rw [float64ArrayNew, if_pos h]
    rw [hshow, hf]
    rfl
  · intro hu hname
    have hf : float64ArrayNew (units + 1) =
        .ok (List.replicate (units + 1).toNat 0) := by
      rw [float64ArrayNew, if_neg (by omega : ¬(units + 1 < 0))]
    rcases hname with h | h | h | h <;> subst h <;>
      exact ⟨_, by rw [hshow, hf]; rfl⟩
  · intro hne hall hpos0
    obtain ⟨ts, hts, hlen, hk⟩ := hlift specs hall
    have hpos : 0 < specs.length := List.length_pos.mpr hne
    have hlen1 : ∀ k, k < ts.length → 1 ≤ (ts.getD k default).data.length := by
      intro k hkk
      rw [hlen] at hkk
      rw [hk k hkk]
      have hmem : specs.getD k default ∈ specs := by
        rw [List.getD_eq_getElem specs default hkk]
        exact List.getElem_mem hkk
      have := hpos0 _ hmem
      omega
    have hmatAll : ∀ n, n ≤ ts.length - 1 → ∃ ms, matricesJS ts n = .ok ms := by
      intro n
      induction n with
      | zero => exact fun _ => ⟨[], rfl⟩
      | succ n ih =>
        intro hn
        obtain ⟨ms, hms⟩ := ih (by omega)
        have h2 : 1 ≤ (ts.getD (n + 1) default).data.length := hlen1 (n + 1) (by omega)
        obtain ⟨m, hm⟩ : ∃ m, matrixNewJS ((ts.getD n default).data.length : ℤ)
            (((ts.getD (n + 1) default).data.length : ℤ) - 1) = .ok m :=
          ⟨_, by rw [matrixNewJS, if_neg (not_lt.mpr (mul_nonneg (by omega) (by omega)))]⟩
        exact ⟨ms ++ [m], by simp only [matricesJS, hms, hm]⟩
    obtain ⟨ms, hms⟩ := hmatAll (ts.length - 1) (by omega)
    have h1 : 1 ≤ (ts.getD (ts.length - 1) default).data.length := hlen1 _ (by omega)
    obtain ⟨out, harr⟩ : ∃ out,
        arrayNew (((ts.getD (ts.length - 1) default).data.length : ℤ) - 1) =
          .ok out :=
      ⟨_, by rw [arrayNew, if_neg (by omega)]⟩
    refine ⟨⟨ts, ms, out, outId⟩, ?_⟩
    simp only [networkNew, hts]
    rw [networkNewJS, if_neg (by omega : ¬ ts.length = 0), harr, hms]
  · intro hne hall hlast
    obtain ⟨ts, hts, hlen, hk⟩ := hlift specs hall
    have hpos : 0 < specs.length := List.length_pos.mpr hne
    have hlast0 : (ts.getD (ts.length - 1) default).data.length = 0 := by
      rw [hlen]
      rw [hk (specs.length - 1) (by omega)]
      rw [hlast]
      rfl
    simp only [networkNew, hts]
    rw [networkNewJS, if_neg (by omega : ¬ ts.length = 0), hlast0]
    rw [show arrayNew (((0 : ℕ) : ℤ) - 1) = .error "RangeError" from by
      rw [arrayNew, if_pos (by omega)]]

/-- Witness for the amended C9: the unknown name `"softmax"` with `units = 2`
fails fast. -/
theorem claim9_amended_witness :
    (("softmax" : String) ≠ "identity" ∧ ("softmax" : String) ≠ "tanh" ∧
     ("softmax" : String) ≠ "binary-step" ∧ ("softmax" : String) ≠ "relu" ∧
     (-1 : ℤ) ≤ 2) ∧
    tensorMake 2 "softmax" 1 = .error "unknown activation" :=
  ⟨⟨by decide, by decide, by decide, by decide, by decide⟩,
   (claim9_amended_construction 2 "softmax" 1 [] 0).1
     (by decide) (by decide) (by decide) (by decide) (by decide)⟩

/-! ### Trainer (unnamed trainer module): options, LCG, weight seeding -/

/-- `TrainingOptions`; `none` models an omitted (`undefined`) property. -/
structure TrainingOptions where
  seed : Option ℕ
  step : Option ℝ
  momentum : Option ℝ

/-- JS `a || b` for an optional numeric property: an absent property
(`undefined`) and the number `0` are both falsy and select the default. -/
noncomputable def jsOr (v : Option ℝ) (d : ℝ) : ℝ :=
  match v with
  | none => d
  | some x => if x = 0 then d else x

/-- `jsOr` for the integer seed option. -/
def jsOrNat (v : Option ℕ) (d : ℕ) : ℕ :=
  match v with
  | none => d
  | some x => if x = 0 then d else x

/-- One update of `Random.next`: `seed = (1103515245 * seed + 12345) % 2^31`. -/
def lcgNext (s : ℕ) : ℕ :=
  (1103515245 * s + 12345) % 2 ^ 31

/-- The seed after `n` calls of `Random.next()` starting from `s`. -/
def lcgIter (s : ℕ) : ℕ → ℕ
  | 0 => s
  | n + 1 => lcgNext (lcgIter s n)

/-- The value returned by the `n`-th (0-based) call of `Random.next()` after
`new Random(seed)`: the updated seed divided by `2^31`, in `[0, 1)`. -/
noncomputable def randomDraw (seed n : ℕ) : ℝ :=
  (lcgIter seed (n + 1) : ℝ) / 2 ^ 31

/-- The weight-seeding loop of the `Trainer` constructor for one matrix:
`for o in outputs: for i in inputs: set(i, o, (next() - 0.5) * (1/sqrt(inputs)))`,
threading the `Random` seed. -/
noncomputable def seedMatrix (m : Matrix) (s : ℕ) : Matrix × ℕ :=
  (List.range m.outputs).foldl (fun acc o =>
    (List.range m.inputs).foldl (fun acc2 i =>
      (acc2.1.set i o
        (((lcgNext acc2.2 : ℝ) / 2 ^ 31 - 0.5) * (1 / Real.sqrt (m.inputs : ℝ))),
       lcgNext acc2.2)) acc) (m, s)

/-- Weight seeding across all matrices in order (`for m = 0..matrices-1`). -/
noncomputable def seedMatrices (ms : List Matrix) (s : ℕ) : List Matrix × ℕ :=
  ms.foldl (fun acc m =>
    (acc.1 ++ [(seedMatrix m acc.2).1], (seedMatrix m acc.2).2)) ([], s)

/-- The `Trainer` class state: the trained network, the resolved options, the
per-layer gradient buffers and the per-matrix momentum-delta matrices.  The
`kernels` array of the source is a view of these fields and needs no field of
its own. -/
structure Trainer where
  network : Network
  step : ℝ
  momentum : ℝ
  seed : ℕ
  gradients : List (List ℝ)
  deltas : List Matrix

/-- The `Trainer` constructor: resolves options with `||` defaults
(seed 0, step 0.15, momentum 0.5), allocates zeroed delta matrices shaped
like the weight matrices and zeroed gradient buffers shaped like the layer
buffers, and seeds every weight from the LCG in matrix order,
`for o in outputs: for i in inputs`. -/
noncomputable def mkTrainer (network : Network) (options : Option TrainingOptions) :
    Trainer :=
  let opts := options.getD ⟨none, none, none⟩
  let seed := jsOrNat opts.seed 0
  ⟨{ network with matrices := (seedMatrices network.matrices seed).1 },
   jsOr opts.step 0.15,
   jsOr opts.momentum 0.5,
   seed,
   network.tensors.map (fun t => List.replicate t.data.length 0),
   network.matrices.map (fun m => matrixNew m.inputs m.outputs)⟩

/-- **C10.** Passing an options object whose `seed`, `step` or `momentum` is
explicitly `0` is indistinguishable from omitting the options entirely: JS
`||` treats `0` as falsy, so each zero collapses to its default
(`seed 0`, `step 0.15`, `momentum 0.5`), and consequently a step size or
momentum of exactly `0` can never be configured. -/
theorem claim10_zero_options_collapse (net : Network) :
    mkTrainer net (some ⟨some 0, some 0, some 0⟩) = mkTrainer net none ∧
    (mkTrainer net none).seed = 0 ∧
    (mkTrainer net none).step = 0.15 ∧
    (mkTrainer net none).momentum = 0.5 ∧
    (∀ opts, (mkTrainer net opts).step ≠ 0 ∧ (mkTrainer net opts).momentum ≠ 0) := by
  refine ⟨?_, rfl, rfl, rfl, ?_⟩
  · simp [mkTrainer, jsOr, jsOrNat]
  · intro opts
    have hstep : ∀ v : Option ℝ, jsOr v 0.15 ≠ 0 := by
      intro v
      rcases v with _ | x
      · norm_num [jsOr]
      · simp only [jsOr]
        by_cases hx : x = 0
        · rw [if_pos hx]; norm_num
        · rw [if_neg hx]; exact hx
    have hmom : ∀ v : Option ℝ, jsOr v 0.5 ≠ 0 := by
      intro v
      rcases v with _ | x
      · norm_num [jsOr]
      · simp only [jsOr]
        by_cases hx : x = 0
        · rw [if_pos hx]; norm_num
        · rw [if_neg hx]; exact hx
    exact ⟨hstep _, hmom _⟩

theorem lcgIter_add (s : ℕ) (a b : ℕ) :
    lcgIter s (a + b) = lcgIter (lcgIter s a) b := by
  induction b with
  | zero => rfl
  | succ b ih => rw [← Nat.add_assoc, lcgIter, lcgIter, ih]

theorem linIdx_lt {I O i o : ℕ} (hi : i < I) (ho : o < O) : i + o * I < I * O := by
  have h1 : i + o * I < (o + 1) * I := by rw [add_mul, one_mul]; omega
  have h2 : (o + 1) * I ≤ O * I := Nat.mul_le_mul_right I ho
  rw [Nat.mul_comm O I] at h2
  omega

theorem linIdx_ne {I i1 i2 o1 o2 : ℕ} (h1 : i1 < I) (h2 : i2 < I)
    (hne : i1 ≠ i2 ∨ o1 ≠ o2) : i1 + o1 * I ≠ i2 + o2 * I := by
  intro h
  have e1 : (i1 + o1 * I) % I = i1 := by
    rw [Nat.add_mul_mod_self_right, Nat.mod_eq_of_lt h1]
  have e2 : (i2 + o2 * I) % I = i2 := by
    rw [Nat.add_mul_mod_self_right, Nat.mod_eq_of_lt h2]
  have hii : i1 = i2 := by rw [← e1, ← e2, h]
  have hoo : o1 * I = o2 * I := by omega
  have hIpos : 0 < I := by omega
  have : o1 = o2 := Nat.eq_of_mul_eq_mul_right hIpos hoo
  rcases hne with h' | h' <;> exact h' (by omega)

theorem matrix_set_inputs (m : Matrix) (i o : ℕ) (v : ℝ) :
    (m.set i o v).inputs = m.inputs := rfl

theorem matrix_set_outputs (m : Matrix) (i o : ℕ) (v : ℝ) :
    (m.set i o v).outputs = m.outputs := rfl

theorem matrix_set_data_length (m : Matrix) (i o : ℕ) (v : ℝ) :
    (m.set i o v).data.length = m.data.length := List.length_set ..

theorem matrix_get_set_self (m : Matrix) (i o : ℕ) (v : ℝ)
    (h : i + o * m.inputs < m.data.length) : (m.set i o v).get i o = v := by
  simp only [Matrix.get, Matrix.set]
  exact getD_set_self _ _ _ h

theorem matrix_get_set_ne (m : Matrix) (i o i2 o2 : ℕ) (v : ℝ)
    (h : i + o * m.inputs ≠ i2 + o2 * m.inputs) :
    (m.set i o v).get i2 o2 = m.get i2 o2 := by
  simp only [Matrix.get, Matrix.set]
  exact getD_set_ne _ _ _ h

/-- One row of the weight-seeding loop: after `n ≤ inputs` inner iterations
for output `o`, the seed has advanced `n` times, cells of other rows and the
unprocessed tail of row `o` are untouched, and cell `(i, o)` for `i < n`
holds the `i`-th draw of this row. -/
theorem seedRow_upTo (I O : ℕ) (o : ℕ) (ho : o < O) :
    ∀ n, n ≤ I → ∀ (mat : Matrix) (s0 : ℕ),
      mat.inputs = I → mat.outputs = O → mat.data.length = I * O →
      ((List.range n).foldl (fun acc2 i =>
          (acc2.1.set i o
            (((lcgNext acc2.2 : ℝ) / 2 ^ 31 - 0.5) * (1 / Real.sqrt (I : ℝ))),
           lcgNext acc2.2)) (mat, s0)).2 = lcgIter s0 n ∧
      ((List.range n).foldl (fun acc2 i =>
          (acc2.1.set i o
            (((lcgNext acc2.2 : ℝ) / 2 ^ 31 - 0.5) * (1 / Real.sqrt (I : ℝ))),
           lcgNext acc2.2)) (mat, s0)).1.inputs = I ∧
      ((List.range n).foldl (fun acc2 i =>
          (acc2.1.set i o
            (((lcgNext acc2.2 : ℝ) / 2 ^ 31 - 0.5) * (1 / Real.sqrt (I : ℝ))),
           lcgNext acc2.2)) (mat, s0)).1.outputs = O ∧
      ((List.range n).foldl (fun acc2 i =>
          (acc2.1.set i o
            (((lcgNext acc2.2 : ℝ) / 2 ^ 31 - 0.5) * (1 / Real.sqrt (I : ℝ))),
           lcgNext acc2.2)) (mat, s0)).1.data.length = I * O ∧
      (∀ i2 o2, i2 < I → o2 ≠ o →
        ((List.range n).foldl (fun acc2 i =>
            (acc2.1.set i o
              (((lcgNext acc2.2 : ℝ) / 2 ^ 31 - 0.5) * (1 / Real.sqrt (I : ℝ))),
             lcgNext acc2.2)) (mat, s0)).1.get i2 o2 = mat.get i2 o2) ∧
      (∀ i2, n ≤ i2 →
        ((List.range n).foldl (fun acc2 i =>
            (acc2.1.set i o
              (((lcgNext acc2.2 : ℝ) / 2 ^ 31 - 0.5) * (1 / Real.sqrt (I : ℝ))),
             lcgNext acc2.2)) (mat, s0)).1.get i2 o = mat.get i2 o) ∧
      (∀ i2, i2 < n →
        ((List.range n).foldl (fun acc2 i =>
            (acc2.1.set i o
              (((lcgNext acc2.2 : ℝ) / 2 ^ 31 - 0.5) * (1 / Real.sqrt (I : ℝ))),
             lcgNext acc2.2)) (mat, s0)).1.get i2 o =
          ((lcgIter s0 (i2 + 1) : ℝ) / 2 ^ 31 - 0.5) * (1 / Real.sqrt (I : ℝ))) := by
  intro n
  induction n with
  | zero =>
    intro _ mat s0 hin hout hlen
    exact ⟨rfl, hin, hout, hlen, fun _ _ _ _ => rfl, fun _ _ => rfl, fun _ h => by omega⟩
  | succ n ih =>
    intro hn mat s0 hin hout hlen
    obtain ⟨q2, qin, qout, qlen, qother, qtail, qdone⟩ :=
      ih (by omega) mat s0 hin hout hlen
    simp only [List.range_succ, List.foldl_append, List.foldl_cons, List.foldl_nil] at *
    constructor
    · simp only [q2, lcgIter]
    refine ⟨by rw [matrix_set_inputs]; exact qin,
      by rw [matrix_set_outputs]; exact qout,
      by rw [matrix_set_data_length]; exact qlen, ?_, ?_, ?_⟩
    · intro i2 o2 hi2 ho2
      rw [matrix_get_set_ne _ _ _ _ _ _ (by rw [qin]; exact linIdx_ne (by omega) hi2 (Or.inr fun h => ho2 h.symm))]
      exact qother i2 o2 hi2 ho2
    · intro i2 hi2
      rw [matrix_get_set_ne _ _ _ _ _ _ (by rw [qin]; intro h; have h2 := Nat.add_right_cancel h; omega)]
      exact qtail i2 (by omega)
    · intro i2 hi2
      by_cases h : i2 = n
      · subst h
        rw [matrix_get_set_self _ _ _ _ (by rw [qin, qlen]; exact linIdx_lt (by omega) ho)]
        rw [q2]
        rfl
      · rw [matrix_get_set_ne _ _ _ _ _ _ (by rw [qin]; intro hcontra; have h2 := Nat.add_right_cancel hcontra; omega)]
        exact qdone i2 (by omega)

/-- Full characterization of the per-matrix seeding loop: the seed advances
`outputs * inputs` times, dimensions are unchanged, and cell `(i, o)` holds
the draw with 0-based index `o * inputs + i` mapped through
`(draw - 0.5) * (1 / sqrt inputs)`. -/
theorem seedMatrix_spec (m : Matrix) (s : ℕ)
    (hd : m.data.length = m.inputs * m.outputs) :
    (seedMatrix m s).2 = lcgIter s (m.outputs * m.inputs) ∧
    (seedMatrix m s).1.inputs = m.inputs ∧
    (seedMatrix m s).1.outputs = m.outputs ∧
    (seedMatrix m s).1.data.length = m.data.length ∧
    (∀ i, i < m.inputs → ∀ o, o < m.outputs →
      (seedMatrix m s).1.get i o =
        ((lcgIter s (o * m.inputs + i + 1) : ℝ) / 2 ^ 31 - 0.5) *
          (1 / Real.sqrt (m.inputs : ℝ))) := by
  have main : ∀ n, n ≤ m.outputs →
      ((List.range n).foldl (fun acc o =>
          (List.range m.inputs).foldl (fun acc2 i =>
            (acc2.1.set i o
              (((lcgNext acc2.2 : ℝ) / 2 ^ 31 - 0.5) * (1 / Real.sqrt (m.inputs : ℝ))),
             lcgNext acc2.2)) acc) (m, s)).2 = lcgIter s (n * m.inputs) ∧
      ((List.range n).foldl (fun acc o =>
          (List.range m.inputs).foldl (fun acc2 i =>
            (acc2.1.set i o
              (((lcgNext acc2.2 : ℝ) / 2 ^ 31 - 0.5) * (1 / Real.sqrt (m.inputs : ℝ))),
             lcgNext acc2.2)) acc) (m, s)).1.inputs = m.inputs ∧
      ((List.range n).foldl (fun acc o =>
          (List.range m.inputs).foldl (fun acc2 i =>
            (acc2.1.set i o
              (((lcgNext acc2.2 : ℝ) / 2 ^ 31 - 0.5) * (1 / Real.sqrt (m.inputs : ℝ))),
             lcgNext acc2.2)) acc) (m, s)).1.outputs = m.outputs ∧
      ((List.range n).foldl (fun acc o =>
          (List.range m.inputs).foldl (fun acc2 i =>
            (acc2.1.set i o
              (((lcgNext acc2.2 : ℝ) / 2 ^ 31 - 0.5) * (1 / Real.sqrt (m.inputs : ℝ))),
             lcgNext acc2.2)) acc) (m, s)).1.data.length = m.inputs * m.outputs ∧
      (∀ i2, i2 < m.inputs → ∀ o2, n ≤ o2 →
        ((List.range n).foldl (fun acc o =>
            (List.range m.inputs).foldl (fun acc2 i =>
              (acc2.1.set i o
                (((lcgNext acc2.2 : ℝ) / 2 ^ 31 - 0.5) * (1 / Real.sqrt (m.inputs : ℝ))),
               lcgNext acc2.2)) acc) (m, s)).1.get i2 o2 = m.get i2 o2) ∧
      (∀ o2, o2 < n → ∀ i2, i2 < m.inputs →
        ((List.range n).foldl (fun acc o =>
            (List.range m.inputs).foldl (fun acc2 i =>
              (acc2.1.set i o
                (((lcgNext acc2.2 : ℝ) / 2 ^ 31 - 0.5) * (1 / Real.sqrt (m.inputs : ℝ))),
               lcgNext acc2.2)) acc) (m, s)).1.get i2 o2 =
          ((lcgIter s (o2 * m.inputs + i2 + 1) : ℝ) / 2 ^ 31 - 0.5) *
            (1 / Real.sqrt (m.inputs : ℝ))) := by
    intro n
    induction n with
    | zero =>
      intro _
      exact ⟨by rw [Nat.zero_mul]; rfl, rfl, rfl, hd, fun _ _ _ _ => rfl, fun _ h _ _ => by omega⟩
    | succ n ih =>
      intro hn
      obtain ⟨p2, pin, pout, plen, puntouched, pdone⟩ := ih (by omega)
      simp only [List.range_succ, List.foldl_append, List.foldl_cons, List.foldl_nil] at *
      obtain ⟨r2, rin, rout, rlen, rother, rtail, rdone⟩ :=
        seedRow_upTo m.inputs m.outputs n (by omega) m.inputs le_rfl
          ((List.range n).foldl (fun acc o =>
            (List.range m.inputs).foldl (fun acc2 i =>
              (acc2.1.set i o
                (((lcgNext acc2.2 : ℝ) / 2 ^ 31 - 0.5) * (1 / Real.sqrt (m.inputs : ℝ))),
               lcgNext acc2.2)) acc) (m, s)).1
          ((List.range n).foldl (fun acc o =>
            (List.range m.inputs).foldl (fun acc2 i =>
              (acc2.1.set i o
                (((lcgNext acc2.2 : ℝ) / 2 ^ 31 - 0.5) * (1 / Real.sqrt (m.inputs : ℝ))),
               lcgNext acc2.2)) acc) (m, s)).2
          pin pout plen
      refine ⟨?_, rin, rout, rlen, ?_, ?_⟩
      · rw [r2, p2, ← lcgIter_add]
        rw [Nat.succ_mul]
      · intro i2 hi2 o2 ho2
        rw [rother i2 o2 hi2 (by omega)]
        exact puntouched i2 hi2 o2 (by omega)
      · intro o2 ho2 i2 hi2
        by_cases h : o2 = n
        · subst h
          rw [rdone i2 hi2, p2, ← lcgIter_add]
          rw [show o2 * m.inputs + (i2 + 1) = o2 * m.inputs + i2 + 1 from rfl]
        · rw [rother i2 o2 hi2 h]
          exact pdone o2 (by omega) i2 hi2
  obtain ⟨p2, pin, pout, plen, _, pdone⟩ := main m.outputs le_rfl
  have hsm : seedMatrix m s = (List.range m.outputs).foldl (fun acc o =>
      (List.range m.inputs).foldl (fun acc2 i =>
        (acc2.1.set i o
          (((lcgNext acc2.2 : ℝ) / 2 ^ 31 - 0.5) * (1 / Real.sqrt (m.inputs : ℝ))),
         lcgNext acc2.2)) acc) (m, s) := rfl
  rw [hsm]
  exact ⟨p2, pin, pout, by rw [plen, hd], fun i hi o ho => pdone o ho i hi⟩

/-- Structural companion of `seedMatrices`: the same left-to-right traversal
written as a recursion (the fold accumulates with append). -/
noncomputable def seedMatricesRec : List Matrix → ℕ → List Matrix × ℕ
  | [], s => ([], s)
  | m :: rest, s =>
    ((seedMatrix m s).1 :: (seedMatricesRec rest (seedMatrix m s).2).1,
     (seedMatricesRec rest (seedMatrix m s).2).2)

theorem seedMatrices_eq_rec (ms : List Matrix) (s : ℕ) :
    seedMatrices ms s = seedMatricesRec ms s := by
  have aux : ∀ (ms : List Matrix) (acc : List Matrix) (s : ℕ),
      ms.foldl (fun acc m =>
        (acc.1 ++ [(seedMatrix m acc.2).1], (seedMatrix m acc.2).2)) (acc, s) =
      (acc ++ (seedMatricesRec ms s).1, (seedMatricesRec ms s).2) := by
    intro ms
    induction ms with
    | nil => intro acc s; simp [seedMatricesRec]
    | cons m rest ih =>
      intro acc s
      simp only [List.foldl_cons, seedMatricesRec]
      rw [ih]
      rw [List.append_assoc]
      rfl
  rw [seedMatrices, aux]
  rfl

/-- Number of LCG draws consumed before matrix `k` is seeded: the sum of
`outputs * inputs` over the earlier matrices. -/
def drawOffset (ms : List Matrix) (k : ℕ) : ℕ :=
  ((List.range k).map
    (fun j => (ms.getD j default).outputs * (ms.getD j default).inputs)).sum

theorem drawOffset_cons (m : Matrix) (rest : List Matrix) (k : ℕ) :
    drawOffset (m :: rest) (k + 1) = m.outputs * m.inputs + drawOffset rest k := by
  simp only [drawOffset, List.range_succ_eq_map, List.map_cons, List.sum_cons,
    List.map_map]
  rfl

theorem seedMatricesRec_facts : ∀ (ms : List Matrix) (s : ℕ),
    (∀ k, k < ms.length → (ms.getD k default).data.length =
      (ms.getD k default).inputs * (ms.getD k default).outputs) →
    (seedMatricesRec ms s).1.length = ms.length ∧
    (∀ k, k < ms.length → (seedMatricesRec ms s).1.getD k default =
      (seedMatrix (ms.getD k default) (lcgIter s (drawOffset ms k))).1) := by
  intro ms
  induction ms with
  | nil => intro s _; exact ⟨rfl, fun k hk => by simp at hk⟩
  | cons m rest ih =>
    intro s hd
    obtain ⟨ihlen, ihval⟩ := ih (seedMatrix m s).2
      (fun k hk => hd (k + 1) (by simpa using Nat.succ_lt_succ hk))
    refine ⟨by simp [seedMatricesRec, ihlen], ?_⟩
    intro k hk
    cases k with
    | zero =>
      show (seedMatrix m s).1 = (seedMatrix m (lcgIter s (drawOffset (m :: rest) 0))).1
      rfl
    | succ k =>
      show (seedMatricesRec rest (seedMatrix m s).2).1.getD k default = _
      rw [ihval k (by simpa using Nat.lt_of_succ_lt_succ hk)]
      have hseed : (seedMatrix m s).2 = lcgIter s (m.outputs * m.inputs) :=
        (seedMatrix_spec m s (hd 0 (by omega))).1
      rw [hseed, ← lcgIter_add, ← drawOffset_cons]
      rfl

/-- The property claim C5 states of trainer construction: every weight is
seeded deterministically from the LCG
`seed' = (1103515245*seed + 12345) mod 2^31` starting at the resolved seed,
draws consumed in matrix order with `o` outer and `i` inner (so the draw for
cell `(i, o)` of matrix `k` has index `drawOffset + o*inputs + i`), each draw
mapped to `(draw - 0.5) / sqrt(inputs)`; and trainers built from identical
data are bit-identical. -/
def SeedSpec (net : Network) (options : Option TrainingOptions) : Prop :=
  (∀ k, k < net.matrices.length →
    ∀ i, i < (net.matrices.getD k default).inputs →
    ∀ o, o < (net.matrices.getD k default).outputs →
    ((mkTrainer net options).network.matrices.getD k default).get i o =
      (randomDraw (mkTrainer net options).seed
          (drawOffset net.matrices k + (o * (net.matrices.getD k default).inputs + i)) -
        0.5) / Real.sqrt ((net.matrices.getD k default).inputs : ℝ)) ∧
  (∀ net2 options2, net2 = net → options2 = options →
    (mkTrainer net2 options2).network.matrices =
      (mkTrainer net options).network.matrices)

/-- **C5.** Trainer construction seeds every weight from the linear
congruential generator exactly as described, and two trainers built from
identical layer data and the same options have identical weight matrices. -/
theorem claim5_weight_seeding (net : Network) (options : Option TrainingOptions)
    (hwf : net.Wf) : SeedSpec net options := by
  obtain ⟨hpos, hmc, hsz, hmins, hmouts, hmdata, houtlen⟩ := hwf
  constructor
  · intro k hk i hi o ho
    have hmats : (mkTrainer net options).network.matrices =
        (seedMatrices net.matrices (mkTrainer net options).seed).1 := rfl
    rw [hmats, seedMatrices_eq_rec]
    obtain ⟨hlen2, hval⟩ :=
      seedMatricesRec_facts net.matrices (mkTrainer net options).seed hmdata
    rw [hval k hk]
    obtain ⟨s2, sin, sout, slen, sval⟩ :=
      seedMatrix_spec (net.matrices.getD k default)
        (lcgIter (mkTrainer net options).seed (drawOffset net.matrices k))
        (hmdata k hk)
    rw [sval i hi o ho, ← lcgIter_add]
    rw [show drawOffset net.matrices k + (o * (net.matrices.getD k default).inputs + i + 1)
        = drawOffset net.matrices k + (o * (net.matrices.getD k default).inputs + i) + 1
      from by omega]
    rw [randomDraw, mul_one_div]
  · intro net2 options2 h1 h2
    rw [h1, h2]

/-- Witness for C5 at `exNet` with omitted options (seed 0). -/
theorem claim5_witness : exNet.Wf ∧ SeedSpec exNet none :=
  ⟨exNet_wf, claim5_weight_seeding exNet none exNet_wf⟩

/-! ### `Trainer.backward` (four phases of the source method) -/

/-- Phase-2 gradient row for kernel `k`: for each input-side unit
`i < matrix.inputs`, `grad[i] = (Σ_o matrix.get(i,o) * downstreamGrad[o]) *
derive(layerValue[i])`, written over the old buffer `base`. -/
def gradRow (ms : List Matrix) (ts : List Tensor) (down base : List ℝ) (k : ℕ) :
    List ℝ :=
  writeRange (ms.getD k default).inputs
    (fun i => sumRange (ms.getD k default).outputs
        (fun o => (ms.getD k default).get i o * down.getD o 0) *
      (ts.getD k default).activation.derive ((ts.getD k default).data.getD i 0))
    base

/-- Phase 2: `for (k = kernels.length - 1; k > 0; k--)` — the kernel indices
`n, n-1, ..., 1` (with `n = kernels.length - 1`), each writing the gradient
buffer of its input layer from the downstream gradient buffer. -/
def gradDescend (ms : List Matrix) (ts : List Tensor) (n : ℕ)
    (g : List (List ℝ)) : List (List ℝ) :=
  ((List.range' 1 n).reverse).foldl
    (fun g k => g.set k (gradRow ms ts (g.getD (k + 1) []) (g.getD k []) k)) g

/-- One phase-3 cell update: `new_delta = step * input.data[i] * grads[o] +
momentum * old_delta`; `weight += new_delta`; the delta matrix stores
`new_delta` for the next call. -/
def cellUpdate (step mom : ℝ) (inData gOut : List ℝ) (q : Matrix × Matrix)
    (i o : ℕ) : Matrix × Matrix :=
  (q.1.set i o (q.1.get i o +
      (step * inData.getD i 0 * gOut.getD o 0 + mom * q.2.get i o)),
   q.2.set i o (step * inData.getD i 0 * gOut.getD o 0 + mom * q.2.get i o))

/-- Phase-3 per-kernel loop: `for i in matrix.inputs: for o in matrix.outputs`
over the weight matrix (first component) and delta matrix (second). -/
def matUpdate (step mom : ℝ) (inData gOut : List ℝ) (p : Matrix × Matrix) :
    Matrix × Matrix :=
  (List.range p.1.inputs).foldl (fun p2 i =>
    (List.range p.1.outputs).foldl
      (fun q o => cellUpdate step mom inData gOut q i o) p2) p

/-- Phase 3 across kernels: `for (k = kernels.length - 1; k > -1; k--)`. -/
def weightsDescend (step mom : ℝ) (ts : List Tensor) (g2 : List (List ℝ))
    (n : ℕ) (acc : List Matrix × List Matrix) : List Matrix × List Matrix :=
  ((List.range n).reverse).foldl (fun acc k =>
    (acc.1.set k (matUpdate step mom (ts.getD k default).data (g2.getD (k + 1) [])
        (acc.1.getD k default, acc.2.getD k default)).1,
     acc.2.set k (matUpdate step mom (ts.getD k default).data (g2.getD (k + 1) [])
        (acc.1.getD k default, acc.2.getD k default)).2)) acc

/-- `Trainer.backward`: phase 0 recomputes `network.forward(input)`; phase 1
writes the last kernel's output-side gradients
`(expect[o] - out[o]) * derive(out[o])` for `o < matrix.outputs`; phase 2
back-propagates hidden gradients; phase 3 applies the momentum update to
every weight and delta matrix. -/
def Trainer.backward (t : Trainer) (input expect : List ℝ) : Trainer :=
  let net1 := (t.network.forward input).1
  let K := net1.matrices.length
  let outT := net1.tensors.getD K default
  let g1 := t.gradients.set K
    (writeRange (net1.matrices.getD (K - 1) default).outputs
      (fun o => (expect.getD o 0 - outT.data.getD o 0) *
        outT.activation.derive (outT.data.getD o 0))
      (t.gradients.getD K []))
  let g2 := gradDescend net1.matrices net1.tensors (K - 1) g1
  let upd := weightsDescend t.step t.momentum net1.tensors g2 K
    (net1.matrices, t.deltas)
  ⟨{ net1 with matrices := upd.1 }, t.step, t.momentum, t.seed, g2, upd.2⟩

/-- Characterization of the phase-2 descending loop: buffers `0` and those
past `n` are untouched, and each buffer `1 ≤ j ≤ n` holds `gradRow` of the
final downstream buffer over its original contents. -/
theorem gradDescend_spec (ms : List Matrix) (ts : List Tensor) :
    ∀ n (g : List (List ℝ)), n < g.length →
      (gradDescend ms ts n g).length = g.length ∧
      (∀ j, j = 0 ∨ n + 1 ≤ j → (gradDescend ms ts n g).getD j [] = g.getD j []) ∧
      (∀ j, 1 ≤ j → j ≤ n → (gradDescend ms ts n g).getD j [] =
        gradRow ms ts ((gradDescend ms ts n g).getD (j + 1) []) (g.getD j []) j) := by
  intro n
  induction n with
  | zero =>
    intro g _
    exact ⟨rfl, fun _ _ => rfl, fun j h1 h2 => by omega⟩
  | succ n ih =>
    intro g hg
    have hstep : gradDescend ms ts (n + 1) g = gradDescend ms ts n
        (g.set (1 + n) (gradRow ms ts (g.getD (1 + n + 1) []) (g.getD (1 + n) []) (1 + n))) := by
      simp only [gradDescend, List.range'_concat, List.reverse_append,
        List.reverse_cons, List.reverse_nil, List.nil_append, List.singleton_append,
        List.foldl_cons, Nat.mul_one, Nat.one_mul]
    set g' := g.set (1 + n)
      (gradRow ms ts (g.getD (1 + n + 1) []) (g.getD (1 + n) []) (1 + n)) with hgdef
    have hg'len : g'.length = g.length := List.length_set ..
    obtain ⟨ihlen, ihfix, ihval⟩ := ih g' (by omega)
    have hne : ∀ j, j ≠ 1 + n → g'.getD j [] = g.getD j [] := by
      intro j hj
      exact getD_set_ne _ _ _ (fun h => hj h.symm)
    refine ⟨by rw [hstep, ihlen, hg'len], ?_, ?_⟩
    · intro j hj
      rw [hstep, ihfix j (by omega), hne j (by omega)]
    · intro j h1 h2
      by_cases hj : j = n + 1
      · subst hj
        rw [hstep, ihfix (n + 1) (by omega)]
        have hself : g'.getD (n + 1) [] =
            gradRow ms ts (g.getD (1 + n + 1) []) (g.getD (1 + n) []) (1 + n) := by
          rw [hgdef]
          rw [show 1 + n = n + 1 from by omega]
          exact getD_set_self _ _ _ (by omega)
        rw [hself]
        have hdown : (gradDescend ms ts n g').getD (n + 1 + 1) [] = g.getD (n + 1 + 1) [] := by
          rw [ihfix (n + 1 + 1) (by omega), hne (n + 1 + 1) (by omega)]
        rw [hdown]
        rw [show 1 + n = n + 1 from by omega]
      · rw [hstep, ihval j h1 (by omega), hne j (by omega)]

theorem linIdx_ne_same_i {I i o o2 : ℕ} (hIpos : 0 < I) (h : o ≠ o2) :
    i + o * I ≠ i + o2 * I := by
  intro hcontra
  have h2 : o * I = o2 * I := by omega
  exact h (Nat.eq_of_mul_eq_mul_right hIpos h2)

/-- Characterization of the inner `for o` loop of phase 3 at row `i`: other
rows and the unprocessed tail are untouched, and each processed cell holds
the momentum update computed from the original matrices. -/
theorem cellRow_spec (step mom : ℝ) (inData gOut : List ℝ) (i I Ofull : ℕ) :
    ∀ O, O ≤ Ofull → ∀ (q0 : Matrix × Matrix),
      q0.1.inputs = I → q0.2.inputs = I →
      q0.1.data.length = I * Ofull → q0.2.data.length = I * Ofull → i < I →
      ((List.range O).foldl (fun q o => cellUpdate step mom inData gOut q i o) q0).1.inputs = I ∧
      ((List.range O).foldl (fun q o => cellUpdate step mom inData gOut q i o) q0).2.inputs = I ∧
      ((List.range O).foldl (fun q o => cellUpdate step mom inData gOut q i o) q0).1.outputs = q0.1.outputs ∧
      ((List.range O).foldl (fun q o => cellUpdate step mom inData gOut q i o) q0).2.outputs = q0.2.outputs ∧
      ((List.range O).foldl (fun q o => cellUpdate step mom inData gOut q i o) q0).1.data.length = I * Ofull ∧
      ((List.range O).foldl (fun q o => cellUpdate step mom inData gOut q i o) q0).2.data.length = I * Ofull ∧
      (∀ i2 o2, i2 < I → (i2 ≠ i ∨ O ≤ o2) →
        ((List.range O).foldl (fun q o => cellUpdate step mom inData gOut q i o) q0).1.get i2 o2 = q0.1.get i2 o2 ∧
        ((List.range O).foldl (fun q o => cellUpdate step mom inData gOut q i o) q0).2.get i2 o2 = q0.2.get i2 o2) ∧
      (∀ o2, o2 < O →
        ((List.range O).foldl (fun q o => cellUpdate step mom inData gOut q i o) q0).1.get i o2 =
          q0.1.get i o2 + (step * inData.getD i 0 * gOut.getD o2 0 + mom * q0.2.get i o2) ∧
        ((List.range O).foldl (fun q o => cellUpdate step mom inData gOut q i o) q0).2.get i o2 =
          step * inData.getD i 0 * gOut.getD o2 0 + mom * q0.2.get i o2) := by
  intro O
  induction O with
  | zero =>
    intro _ q0 h1 h2 h3 h4 hi
    exact ⟨h1, h2, rfl, rfl, h3, h4, fun _ _ _ _ => ⟨rfl, rfl⟩, fun _ h => by omega⟩
  | succ O ih =>
    intro hO q0 h1 h2 h3 h4 hi
    obtain ⟨r1, r2, r3, r4, r5, r6, runtouched, rdone⟩ := ih (by omega) q0 h1 h2 h3 h4 hi
    simp only [List.range_succ, List.foldl_append, List.foldl_cons, List.foldl_nil] at *
    have hIpos : 0 < I := by omega
    refine ⟨by simp only [cellUpdate, matrix_set_inputs]; exact r1,
      by simp only [cellUpdate, matrix_set_inputs]; exact r2,
      by simp only [cellUpdate, matrix_set_outputs]; exact r3,
      by simp only [cellUpdate, matrix_set_outputs]; exact r4,
      by simp only [cellUpdate, matrix_set_data_length]; exact r5,
      by simp only [cellUpdate, matrix_set_data_length]; exact r6, ?_, ?_⟩
    · intro i2 o2 hi2 hcase
      have hidx : i + O * (List.foldl (fun q o => cellUpdate step mom inData gOut q i o) q0
          (List.range O)).1.inputs ≠ i2 + o2 * (List.foldl (fun q o =>
          cellUpdate step mom inData gOut q i o) q0 (List.range O)).1.inputs := by
        rw [r1]
        rcases hcase with h | h
        · exact linIdx_ne hi hi2 (Or.inl (fun hc => h hc.symm))
        · have ho2 : O ≠ o2 := by omega
          by_cases hii : i = i2
          · rw [← hii]; exact linIdx_ne_same_i hIpos ho2
          · exact linIdx_ne hi hi2 (Or.inl (fun hc => hii hc))
      have hidx2 : i + O * (List.foldl (fun q o => cellUpdate step mom inData gOut q i o) q0
          (List.range O)).2.inputs ≠ i2 + o2 * (List.foldl (fun q o =>
          cellUpdate step mom inData gOut q i o) q0 (List.range O)).2.inputs := by
        rw [r2]
        rcases hcase with h | h
        · exact linIdx_ne hi hi2 (Or.inl (fun hc => h hc.symm))
        · have ho2 : O ≠ o2 := by omega
          by_cases hii : i = i2
          · rw [← hii]; exact linIdx_ne_same_i hIpos ho2
          · exact linIdx_ne hi hi2 (Or.inl (fun hc => hii hc))
      constructor
      · show ((List.foldl _ q0 (List.range O)).1.set i O _).get i2 o2 = q0.1.get i2 o2
        rw [matrix_get_set_ne _ _ _ _ _ _ hidx]
        exact (runtouched i2 o2 hi2 (by omega)).1
      · show ((List.foldl _ q0 (List.range O)).2.set i O _).get i2 o2 = q0.2.get i2 o2
        rw [matrix_get_set_ne _ _ _ _ _ _ hidx2]
        exact (runtouched i2 o2 hi2 (by omega)).2
    · intro o2 ho2
      by_cases h : o2 = O
      · subst h
        have hu := runtouched i o2 hi (Or.inr le_rfl)
        constructor
        · show ((List.foldl _ q0 (List.range o2)).1.set i o2 _).get i o2 = _
          rw [matrix_get_set_self _ _ _ _ (by rw [r1, r5]; exact linIdx_lt hi (by omega))]
          rw [hu.1, hu.2]
        · show ((List.foldl _ q0 (List.range o2)).2.set i o2 _).get i o2 = _
          rw [matrix_get_set_self _ _ _ _ (by rw [r2, r6]; exact linIdx_lt hi (by omega))]
          rw [hu.2]
      · have hne1 : i + O * (List.foldl (fun q o => cellUpdate step mom inData gOut q i o) q0
            (List.range O)).1.inputs ≠ i + o2 * (List.foldl (fun q o =>
            cellUpdate step mom inData gOut q i o) q0 (List.range O)).1.inputs := by
          rw [r1]; exact linIdx_ne_same_i hIpos (fun hc => h hc.symm)
        have hne2 : i + O * (List.foldl (fun q o => cellUpdate step mom inData gOut q i o) q0
            (List.range O)).2.inputs ≠ i + o2 * (List.foldl (fun q o =>
            cellUpdate step mom inData gOut q i o) q0 (List.range O)).2.inputs := by
          rw [r2]; exact linIdx_ne_same_i hIpos (fun hc => h hc.symm)
        constructor
        · show ((List.foldl _ q0 (List.range O)).1.set i O _).get i o2 = _
          rw [matrix_get_set_ne _ _ _ _ _ _ hne1]
          exact (rdone o2 (by omega)).1
        · show ((List.foldl _ q0 (List.range O)).2.set i O _).get i o2 = _
          rw [matrix_get_set_ne _ _ _ _ _ _ hne2]
          exact (rdone o2 (by omega)).2

/-- Characterization of the phase-3 per-matrix loop: dimensions are
preserved and every cell `(i, o)` of the weight and delta matrices receives
the momentum update computed from the original pair. -/
theorem matUpdate_spec (step mom : ℝ) (inData gOut : List ℝ) (p : Matrix × Matrix)
    (h2in : p.2.inputs = p.1.inputs)
    (hd1 : p.1.data.length = p.1.inputs * p.1.outputs)
    (hd2 : p.2.data.length = p.1.inputs * p.1.outputs) :
    (matUpdate step mom inData gOut p).1.inputs = p.1.inputs ∧
    (matUpdate step mom inData gOut p).2.inputs = p.2.inputs ∧
    (matUpdate step mom inData gOut p).1.outputs = p.1.outputs ∧
    (matUpdate step mom inData gOut p).2.outputs = p.2.outputs ∧
    (matUpdate step mom inData gOut p).1.data.length = p.1.data.length ∧
    (matUpdate step mom inData gOut p).2.data.length = p.2.data.length ∧
    (∀ i o, i < p.1.inputs → o < p.1.outputs →
      (matUpdate step mom inData gOut p).1.get i o =
        p.1.get i o + (step * inData.getD i 0 * gOut.getD o 0 + mom * p.2.get i o) ∧
      (matUpdate step mom inData gOut p).2.get i o =
        step * inData.getD i 0 * gOut.getD o 0 + mom * p.2.get i o) := by
  have main : ∀ n, n ≤ p.1.inputs →
      ((List.range n).foldl (fun p2 i => (List.range p.1.outputs).foldl
        (fun q o => cellUpdate step mom inData gOut q i o) p2) p).1.inputs = p.1.inputs ∧
      ((List.range n).foldl (fun p2 i => (List.range p.1.outputs).foldl
        (fun q o => cellUpdate step mom inData gOut q i o) p2) p).2.inputs = p.1.inputs ∧
      ((List.range n).foldl (fun p2 i => (List.range p.1.outputs).foldl
        (fun q o => cellUpdate step mom inData gOut q i o) p2) p).1.outputs = p.1.outputs ∧
      ((List.range n).foldl (fun p2 i => (List.range p.1.outputs).foldl
        (fun q o => cellUpdate step mom inData gOut q i o) p2) p).2.outputs = p.2.outputs ∧
      ((List.range n).foldl (fun p2 i => (List.range p.1.outputs).foldl
        (fun q o => cellUpdate step mom inData gOut q i o) p2) p).1.data.length =
        p.1.inputs * p.1.outputs ∧
      ((List.range n).foldl (fun p2 i => (List.range p.1.outputs).foldl
        (fun q o => cellUpdate step mom inData gOut q i o) p2) p).2.data.length =
        p.1.inputs * p.1.outputs ∧
      (∀ i2 o2, i2 < p.1.inputs → n ≤ i2 →
        ((List.range n).foldl (fun p2 i => (List.range p.1.outputs).foldl
          (fun q o => cellUpdate step mom inData gOut q i o) p2) p).1.get i2 o2 =
          p.1.get i2 o2 ∧
        ((List.range n).foldl (fun p2 i => (List.range p.1.outputs).foldl
          (fun q o => cellUpdate step mom inData gOut q i o) p2) p).2.get i2 o2 =
          p.2.get i2 o2) ∧
      (∀ i2 o2, i2 < n → o2 < p.1.outputs →
        ((List.range n).foldl (fun p2 i => (List.range p.1.outputs).foldl
          (fun q o => cellUpdate step mom inData gOut q i o) p2) p).1.get i2 o2 =
          p.1.get i2 o2 + (step * inData.getD i2 0 * gOut.getD o2 0 + mom * p.2.get i2 o2) ∧
        ((List.range n).foldl (fun p2 i => (List.range p.1.outputs).foldl
          (fun q o => cellUpdate step mom inData gOut q i o) p2) p).2.get i2 o2 =
          step * inData.getD i2 0 * gOut.getD o2 0 + mom * p.2.get i2 o2) := by
    intro n
    induction n with
    | zero =>
      intro _
      exact ⟨rfl, h2in, rfl, rfl, hd1, hd2, fun _ _ _ _ => ⟨rfl, rfl⟩,
        fun _ _ h _ => by omega⟩
    | succ n ih =>
      intro hn
      obtain ⟨a1, a2, a3, a4, a5, a6, auntouched, adone⟩ := ih (by omega)
      simp only [List.range_succ, List.foldl_append, List.foldl_cons, List.foldl_nil] at *
      obtain ⟨b1, b2, b3, b4, b5, b6, buntouched, bdone⟩ :=
        cellRow_spec step mom inData gOut n p.1.inputs p.1.outputs
          p.1.outputs le_rfl
          ((List.range n).foldl (fun p2 i => (List.range p.1.outputs).foldl
            (fun q o => cellUpdate step mom inData gOut q i o) p2) p)
          a1 a2 a5 a6 (by omega)
      refine ⟨b1, b2, by rw [b3, a3], by rw [b4, a4], b5, b6, ?_, ?_⟩
      · intro i2 o2 hi2 hn2
        obtain ⟨c1, c2⟩ := buntouched i2 o2 hi2 (Or.inl (by omega))
        obtain ⟨d1, d2⟩ := auntouched i2 o2 hi2 (by omega)
        exact ⟨by rw [c1, d1], by rw [c2, d2]⟩
      · intro i2 o2 hi2 ho2
        by_cases h : i2 = n
        · subst h
          obtain ⟨c1, c2⟩ := bdone o2 ho2
          obtain ⟨d1, d2⟩ := auntouched i2 o2 (by omega) le_rfl
          exact ⟨by rw [c1, d1, d2], by rw [c2, d2]⟩
        · obtain ⟨c1, c2⟩ := buntouched i2 o2 (by omega) (Or.inl (by omega))
          obtain ⟨d1, d2⟩ := adone i2 o2 (by omega) ho2
          exact ⟨by rw [c1, d1], by rw [c2, d2]⟩
  obtain ⟨a1, a2, a3, a4, a5, a6, _, adone⟩ := main p.1.inputs le_rfl
  have hmu : matUpdate step mom inData gOut p =
      (List.range p.1.inputs).foldl (fun p2 i => (List.range p.1.outputs).foldl
        (fun q o => cellUpdate step mom inData gOut q i o) p2) p := rfl
  rw [hmu]
  exact ⟨a1, by rw [a2, h2in], a3, a4, by rw [a5, hd1], by rw [a6, hd2],
    fun i o hi ho => adone i o hi ho⟩

/-- Characterization of the phase-3 outer loop: each kernel index below `n`
gets its weight/delta pair replaced by `matUpdate` of the original pair;
indices at or above `n` are untouched. -/
theorem weightsDescend_spec (step mom : ℝ) (ts : List Tensor) (g2 : List (List ℝ)) :
    ∀ n (acc : List Matrix × List Matrix),
      (weightsDescend step mom ts g2 n acc).1.length = acc.1.length ∧
      (weightsDescend step mom ts g2 n acc).2.length = acc.2.length ∧
      (∀ j, n ≤ j →
        (weightsDescend step mom ts g2 n acc).1.getD j default = acc.1.getD j default ∧
        (weightsDescend step mom ts g2 n acc).2.getD j default = acc.2.getD j default) ∧
      (∀ j, j < n → j < acc.1.length → j < acc.2.length →
        (weightsDescend step mom ts g2 n acc).1.getD j default =
          (matUpdate step mom (ts.getD j default).data (g2.getD (j + 1) [])
            (acc.1.getD j default, acc.2.getD j default)).1 ∧
        (weightsDescend step mom ts g2 n acc).2.getD j default =
          (matUpdate step mom (ts.getD j default).data (g2.getD (j + 1) [])
            (acc.1.getD j default, acc.2.getD j default)).2) := by
  intro n
  induction n with
  | zero =>
    intro acc
    exact ⟨rfl, rfl, fun _ _ => ⟨rfl, rfl⟩, fun j h _ _ => by omega⟩
  | succ n ih =>
    intro acc
    have hstep : weightsDescend step mom ts g2 (n + 1) acc =
        weightsDescend step mom ts g2 n
          (acc.1.set n (matUpdate step mom (ts.getD n default).data (g2.getD (n + 1) [])
            (acc.1.getD n default, acc.2.getD n default)).1,
           acc.2.set n (matUpdate step mom (ts.getD n default).data (g2.getD (n + 1) [])
            (acc.1.getD n default, acc.2.getD n default)).2) := by
      simp only [weightsDescend, List.range_succ, List.reverse_append,
        List.reverse_cons, List.reverse_nil, List.nil_append, List.singleton_append,
        List.foldl_cons]
    obtain ⟨ihlen1, ihlen2, ihfix, ihval⟩ := ih
      (acc.1.set n (matUpdate step mom (ts.getD n default).data (g2.getD (n + 1) [])
        (acc.1.getD n default, acc.2.getD n default)).1,
       acc.2.set n (matUpdate step mom (ts.getD n default).data (g2.getD (n + 1) [])
        (acc.1.getD n default, acc.2.getD n default)).2)
    refine ⟨?_, ?_, ?_, ?_⟩
    · rw [hstep, ihlen1]; exact List.length_set ..
    · rw [hstep, ihlen2]; exact List.length_set ..
    · intro j hj
      rw [hstep]
      obtain ⟨c1, c2⟩ := ihfix j (by omega)
      rw [c1, c2, getD_set_ne _ _ _ (by omega : n ≠ j), getD_set_ne _ _ _ (by omega : n ≠ j)]
      exact ⟨rfl, rfl⟩
    · intro j hj hl1 hl2
      by_cases h : j = n
      · subst h
        rw [hstep]
        obtain ⟨c1, c2⟩ := ihfix j le_rfl
        rw [c1, c2, getD_set_self _ _ _ hl1, getD_set_self _ _ _ hl2]
        exact ⟨rfl, rfl⟩
      · rw [hstep]
        obtain ⟨c1, c2⟩ := ihval j (by omega) (by rw [List.length_set]; exact hl1)
          (by rw [List.length_set]; exact hl2)
        rw [c1, c2, getD_set_ne _ _ _ (by omega : n ≠ j), getD_set_ne _ _ _ (by omega : n ≠ j)]
        exact ⟨rfl, rfl⟩

/-- Shape well-formedness of a trainer state: a well-formed network plus
gradient buffers shaped like the layer buffers and delta matrices shaped
like the weight matrices.  Established by the `Trainer` constructor and
preserved by `forward`/`backward`. -/
def Trainer.Wf (t : Trainer) : Prop :=
  t.network.Wf ∧
  t.gradients.length = t.network.tensors.length ∧
  (∀ j < t.network.tensors.length,
    (t.gradients.getD j []).length = (t.network.tensors.getD j default).data.length) ∧
  t.deltas.length = t.network.matrices.length ∧
  (∀ k < t.network.matrices.length,
    (t.deltas.getD k default).inputs = (t.network.matrices.getD k default).inputs ∧
    (t.deltas.getD k default).outputs = (t.network.matrices.getD k default).outputs ∧
    (t.deltas.getD k default).data.length =
      (t.network.matrices.getD k default).inputs *
        (t.network.matrices.getD k default).outputs)

/-- The property claim C2 states of one `backward` call, on the post-state:
the layer buffers are those recomputed by `forward(input)`; the last
kernel's output gradients are `(expected[o] - out[o]) * derive(out[o])`
(derivative on the activated value); each hidden gradient for kernels
`L-2 .. 1` is the weighted sum of downstream gradients times the local
derivative; and every weight gains
`newDelta = step * inputLayer[i] * downstreamGrad[o] + momentum * oldDelta`,
with `newDelta` stored as the delta for the next call. -/
def BackwardSpec (t : Trainer) (input expect : List ℝ) : Prop :=
  (t.backward input expect).network.tensors = (t.network.forward input).1.tensors ∧
  (∀ o, o < (t.network.matrices.getD (t.network.matrices.length - 1) default).outputs →
    ((t.backward input expect).gradients.getD t.network.matrices.length []).getD o 0 =
      (expect.getD o 0 -
        ((t.network.forward input).1.tensors.getD t.network.matrices.length default).data.getD o 0) *
      ((t.network.forward input).1.tensors.getD t.network.matrices.length default).activation.derive
        (((t.network.forward input).1.tensors.getD t.network.matrices.length default).data.getD o 0)) ∧
  (∀ k, 1 ≤ k → k ≤ t.network.matrices.length - 1 →
    ∀ i, i < (t.network.matrices.getD k default).inputs →
    ((t.backward input expect).gradients.getD k []).getD i 0 =
      (∑ o ∈ Finset.range (t.network.matrices.getD k default).outputs,
        (t.network.matrices.getD k default).get i o *
          ((t.backward input expect).gradients.getD (k + 1) []).getD o 0) *
      ((t.network.forward input).1.tensors.getD k default).activation.derive
        (((t.network.forward input).1.tensors.getD k default).data.getD i 0)) ∧
  (∀ k, k < t.network.matrices.length →
    ∀ i, i < (t.network.matrices.getD k default).inputs →
    ∀ o, o < (t.network.matrices.getD k default).outputs →
    ((t.backward input expect).network.matrices.getD k default).get i o =
      (t.network.matrices.getD k default).get i o +
        (t.step * ((t.network.forward input).1.tensors.getD k default).data.getD i 0 *
            ((t.backward input expect).gradients.getD (k + 1) []).getD o 0 +
          t.momentum * (t.deltas.getD k default).get i o) ∧
    ((t.backward input expect).deltas.getD k default).get i o =
      t.step * ((t.network.forward input).1.tensors.getD k default).data.getD i 0 *
          ((t.backward input expect).gradients.getD (k + 1) []).getD o 0 +
        t.momentum * (t.deltas.getD k default).get i o)

/-- **C2.** For every well-formed trainer and correctly shaped `input` and
`expected`, `Trainer.backward` behaves exactly as claimed: recompute
`forward`, output gradients from the error, hidden gradients by reverse
propagation through the pre-update weights, then the momentum weight
update applied to every `(i, o)` of every kernel. -/
theorem claim2_backward_semantics (t : Trainer) (input expect : List ℝ)
    (hwf : t.Wf) (hK : 0 < t.network.matrices.length)
    (hin : input.length = t.network.inputs)
    (hexp : expect.length = t.network.outputs) :
    BackwardSpec t input expect := by
  obtain ⟨⟨hpos, hmc, hsz, hmins, hmouts, hmdata, houtlen⟩, hglen, hgbuf, hdlen, hdmat⟩ := hwf
  unfold BackwardSpec
  set K := t.network.matrices.length with hKdef
  have hL : t.network.tensors.length = K + 1 := by omega
  set net1 := (t.network.forward input).1 with hnet1
  set base := t.gradients.getD K [] with hbase
  set row1 := writeRange (t.network.matrices.getD (K - 1) default).outputs
    (fun o => (expect.getD o 0 - (net1.tensors.getD K default).data.getD o 0) *
      (net1.tensors.getD K default).activation.derive
        ((net1.tensors.getD K default).data.getD o 0)) base with hrow1
  set g1 := t.gradients.set K row1 with hg1set
  set g2 := gradDescend t.network.matrices net1.tensors (K - 1) g1 with hg2set
  have hbt : (t.backward input expect).network.tensors = net1.tensors := rfl
  have hbg : (t.backward input expect).gradients = g2 := rfl
  have hbm : (t.backward input expect).network.matrices =
      (weightsDescend t.step t.momentum net1.tensors g2 K
        (t.network.matrices, t.deltas)).1 := rfl
  have hbd : (t.backward input expect).deltas =
      (weightsDescend t.step t.momentum net1.tensors g2 K
        (t.network.matrices, t.deltas)).2 := rfl
  have hg1len : g1.length = K + 1 := by
    rw [hg1set, List.length_set, hglen, hL]
  obtain ⟨hgdlen, hgdfix, hgdval⟩ :=
    gradDescend_spec t.network.matrices net1.tensors (K - 1) g1 (by omega)
  refine ⟨hbt, ?_, ?_, ?_⟩
  · intro o ho
    rw [hbg]
    have h1 : g2.getD K [] = g1.getD K [] := hgdfix K (Or.inr (by omega))
    have h2 : g1.getD K [] = row1 := by
      rw [hg1set]
      exact getD_set_self _ _ _ (by rw [hglen, hL]; omega)
    have hblen : base.length = (t.network.tensors.getD K default).data.length := by
      rw [hbase]
      exact hgbuf K (by omega)
    have ho2 : o < base.length := by
      rw [hblen]
      have := hmouts (K - 1) (by omega)
      rw [show K - 1 + 1 = K from by omega] at this
      omega
    rw [h1, h2, hrow1, getD_writeRange, if_pos ⟨ho, ho2⟩]
  · intro k h1k h2k i hi
    rw [hbg]
    rw [hgdval k h1k h2k]
    have hb2 : g1.getD k [] = t.gradients.getD k [] := by
      rw [hg1set]
      exact getD_set_ne _ _ _ (by omega)
    have hblen : (g1.getD k []).length = (t.network.matrices.getD k default).inputs := by
      rw [hb2, hgbuf k (by omega), hmins k (by omega)]
    rw [gradRow, getD_writeRange, if_pos ⟨hi, by rw [hblen]; exact hi⟩]
    rw [sumRange_eq_sum]
  · intro k hk i hi o ho
    rw [hbm, hbd]
    obtain ⟨wlen1, wlen2, wfix, wval⟩ :=
      weightsDescend_spec t.step t.momentum net1.tensors g2 K
        (t.network.matrices, t.deltas)
    obtain ⟨c1, c2⟩ := wval k hk hk (by rw [show (t.network.matrices, t.deltas).2 = t.deltas from rfl, hdlen]; exact hk)
    rw [c1, c2]
    obtain ⟨du_in, du_out, du_dlen⟩ := hdmat k hk
    obtain ⟨m1, m2, m3, m4, m5, m6, mval⟩ :=
      matUpdate_spec t.step t.momentum (net1.tensors.getD k default).data
        (g2.getD (k + 1) [])
        (t.network.matrices.getD k default, t.deltas.getD k default)
        du_in (hmdata k hk) du_dlen
    obtain ⟨v1, v2⟩ := mval i o hi ho
    constructor
    · rw [v1]; exact rfl
    · rw [v2]; exact rfl

/-- Concrete well-formed trainer over `exNet` used for witnesses. -/
def exTrainer : Trainer :=
  ⟨exNet, 0.15, 0.5, 0, [[0, 0, 0], [0, 0]], [matrixNew 3 1]⟩

theorem exTrainer_wf : exTrainer.Wf := by
  unfold Trainer.Wf exTrainer exNet networkOfTensors Network.Wf
  refine ⟨⟨by decide, by decide, ?_, ?_, ?_, ?_, by decide⟩, by decide, ?_, by decide, ?_⟩ <;>
    decide

/-- Witness for C2 at `exTrainer` with input `[1, 2]` and expected `[0]`. -/
theorem claim2_witness :
    exTrainer.Wf ∧ 0 < exTrainer.network.matrices.length ∧
    ([(1 : ℝ), 2].length = exTrainer.network.inputs) ∧
    ([(0 : ℝ)].length = exTrainer.network.outputs) ∧
    BackwardSpec exTrainer [1, 2] [0] :=
  ⟨exTrainer_wf, by decide, rfl, rfl,
   claim2_backward_semantics exTrainer [1, 2] [0] exTrainer_wf (by decide) rfl rfl⟩

/-- One `forward` call preserves every layer buffer's length, activation and
bias slot (given a correctly sized input), preserves well-formedness, and
leaves the weight matrices untouched. -/
theorem forward_preserves (net : Network) (input : List ℝ) (hwf : net.Wf)
    (hlen : input.length = net.inputs) :
    ((net.forward input).1).Wf ∧
    ((net.forward input).1).tensors.length = net.tensors.length ∧
    (∀ j, j < net.tensors.length →
      (((net.forward input).1).tensors.getD j default).data.length =
        (net.tensors.getD j default).data.length ∧
      (((net.forward input).1).tensors.getD j default).activation =
        (net.tensors.getD j default).activation ∧
      (((net.forward input).1).tensors.getD j default).data.getD
          ((net.tensors.getD j default).data.length - 1) 0 =
        (net.tensors.getD j default).data.getD
          ((net.tensors.getD j default).data.length - 1) 0) ∧
    ((net.forward input).1).matrices = net.matrices ∧
    ((net.forward input).1).output.length = net.output.length := by
  obtain ⟨hpos, hmc, hsz, hmins, hmouts, hmdata, houtlen⟩ := hwf
  have htl : net.matrices.length < (loadedList net input).length := by
    rw [loadedList_length]; omega
  have hlen1 : ((net.forward input).1).tensors.length = net.tensors.length := by
    rw [forward_fst_tensors, runKernels_length _ _ htl, loadedList_length]
  have hjs : ∀ j, j < net.tensors.length →
      (((net.forward input).1).tensors.getD j default).data.length =
        (net.tensors.getD j default).data.length ∧
      (((net.forward input).1).tensors.getD j default).activation =
        (net.tensors.getD j default).activation ∧
      (((net.forward input).1).tensors.getD j default).data.getD
          ((net.tensors.getD j default).data.length - 1) 0 =
        (net.tensors.getD j default).data.getD
          ((net.tensors.getD j default).data.length - 1) 0 := by
    intro j hj
    by_cases hj0 : j = 0
    · subst hj0
      rw [forward_fst_tensors, runKernels_getD_fix _ _ htl 0 (Or.inl rfl),
        loadedList_getD_zero net input hpos]
      refine ⟨length_writeRange .., rfl, ?_⟩
      have hsz0 : 0 < (net.tensors.getD 0 default).data.length := hsz 0 hpos
      have hinp : input.length = (net.tensors.getD 0 default).data.length - 1 := hlen
      rw [getD_writeRange, if_neg (by omega :
        ¬((net.tensors.getD 0 default).data.length - 1 < input.length ∧
          (net.tensors.getD 0 default).data.length - 1 <
            (net.tensors.getD 0 default).data.length))]
    · have hjK : j ≤ net.matrices.length := by omega
      rw [forward_fst_tensors, runKernels_getD_val _ _ htl j (by omega) hjK,
        loadedList_getD_ne net input j hj0]
      simp only [computeLayer]
      refine ⟨length_writeRange .., by trivial, ?_⟩
      have hm := hmouts (j - 1) (by omega)
      rw [show j - 1 + 1 = j from by omega] at hm
      rw [getD_writeRange, if_neg (by omega :
        ¬((net.tensors.getD j default).data.length - 1 <
            (net.matrices.getD (j - 1) default).outputs ∧
          (net.tensors.getD j default).data.length - 1 <
            (net.tensors.getD j default).data.length))]
  refine ⟨?_, hlen1, hjs, forward_fst_matrices net input, ?_⟩
  · refine ⟨by omega, ?_, ?_, ?_, ?_, ?_, ?_⟩
    · rw [forward_fst_matrices, hlen1]; exact hmc
    · intro k hk
      rw [hlen1] at hk
      rw [(hjs k hk).1]
      exact hsz k hk
    · intro k hk
      rw [forward_fst_matrices] at hk ⊢
      rw [(hjs k (by omega)).1]
      exact hmins k hk
    · intro k hk
      rw [forward_fst_matrices] at hk ⊢
      rw [(hjs (k + 1) (by omega)).1]
      exact hmouts k hk
    · intro k hk
      rw [forward_fst_matrices] at hk ⊢
      exact hmdata k hk
    · rw [forward_fst_output, forward_snd, length_writeRange, hlen1]
      rw [(hjs (net.tensors.length - 1) (by omega)).1]
      exact houtlen
  · rw [forward_fst_output, forward_snd, length_writeRange]

/-- One `backward` call preserves well-formedness, every layer buffer's
length and bias slot, and every matrix's dimensions. -/
theorem backward_preserves (t : Trainer) (input expect : List ℝ) (hwf : t.Wf)
    (hK : 0 < t.network.matrices.length)
    (hlen : input.length = t.network.inputs) :
    (t.backward input expect).Wf ∧
    (t.backward input expect).network.tensors.length = t.network.tensors.length ∧
    (∀ j, j < t.network.tensors.length →
      ((t.backward input expect).network.tensors.getD j default).data.length =
        (t.network.tensors.getD j default).data.length ∧
      ((t.backward input expect).network.tensors.getD j default).data.getD
          ((t.network.tensors.getD j default).data.length - 1) 0 =
        (t.network.tensors.getD j default).data.getD
          ((t.network.tensors.getD j default).data.length - 1) 0) ∧
    (t.backward input expect).network.matrices.length = t.network.matrices.length ∧
    (∀ k, k < t.network.matrices.length →
      ((t.backward input expect).network.matrices.getD k default).inputs =
        (t.network.matrices.getD k default).inputs ∧
      ((t.backward input expect).network.matrices.getD k default).outputs =
        (t.network.matrices.getD k default).outputs) := by
  obtain ⟨hfwf, hflen, hfjs, hfmat, hfout⟩ :=
    forward_preserves t.network input hwf.1 hlen
  obtain ⟨⟨hpos, hmc, hsz, hmins, hmouts, hmdata, houtlen⟩, hglen, hgbuf, hdlen, hdmat⟩ := hwf
  set K := t.network.matrices.length with hKdef
  have hL : t.network.tensors.length = K + 1 := by omega
  set net1 := (t.network.forward input).1 with hnet1
  set base := t.gradients.getD K [] with hbase
  set row1 := writeRange (t.network.matrices.getD (K - 1) default).outputs
    (fun o => (expect.getD o 0 - (net1.tensors.getD K default).data.getD o 0) *
      (net1.tensors.getD K default).activation.derive
        ((net1.tensors.getD K default).data.getD o 0)) base with hrow1
  set g1 := t.gradients.set K row1 with hg1set
  set g2 := gradDescend t.network.matrices net1.tensors (K - 1) g1 with hg2set
  have hbt : (t.backward input expect).network.tensors = net1.tensors := rfl
  have hbg : (t.backward input expect).gradients = g2 := rfl
  have hbm : (t.backward input expect).network.matrices =
      (weightsDescend t.step t.momentum net1.tensors g2 K
        (t.network.matrices, t.deltas)).1 := rfl
  have hbd : (t.backward input expect).deltas =
      (weightsDescend t.step t.momentum net1.tensors g2 K
        (t.network.matrices, t.deltas)).2 := rfl
  have hbo : (t.backward input expect).network.output = net1.output := rfl
  have hg1len : g1.length = K + 1 := by
    rw [hg1set, List.length_set, hglen, hL]
  obtain ⟨hgdlen, hgdfix, hgdval⟩ :=
    gradDescend_spec t.network.matrices net1.tensors (K - 1) g1 (by omega)
  obtain ⟨wlen1, wlen2, wfix, wval⟩ :=
    weightsDescend_spec t.step t.momentum net1.tensors g2 K
      (t.network.matrices, t.deltas)
  have hmatdims : ∀ k, k < K →
      ((t.backward input expect).network.matrices.getD k default).inputs =
        (t.network.matrices.getD k default).inputs ∧
      ((t.backward input expect).network.matrices.getD k default).outputs =
        (t.network.matrices.getD k default).outputs ∧
      ((t.backward input expect).network.matrices.getD k default).data.length =
        (t.network.matrices.getD k default).data.length := by
    intro k hk
    obtain ⟨du_in, du_out, du_dlen⟩ := hdmat k hk
    obtain ⟨m1, m2, m3, m4, m5, m6, mval⟩ :=
      matUpdate_spec t.step t.momentum (net1.tensors.getD k default).data
        (g2.getD (k + 1) [])
        (t.network.matrices.getD k default, t.deltas.getD k default)
        du_in (hmdata k hk) du_dlen
    obtain ⟨c1, c2⟩ := wval k hk hk (by rw [show (t.network.matrices, t.deltas).2 = t.deltas from rfl, hdlen]; exact hk)
    rw [hbm, c1]
    exact ⟨by rw [← m1]; try exact rfl, by rw [← m3]; try exact rfl,
      by rw [← m5]; try exact rfl⟩
  have hdeltadims : ∀ k, k < K →
      ((t.backward input expect).deltas.getD k default).inputs =
        (t.deltas.getD k default).inputs ∧
      ((t.backward input expect).deltas.getD k default).outputs =
        (t.deltas.getD k default).outputs ∧
      ((t.backward input expect).deltas.getD k default).data.length =
        (t.deltas.getD k default).data.length := by
    intro k hk
    obtain ⟨du_in, du_out, du_dlen⟩ := hdmat k hk
    obtain ⟨m1, m2, m3, m4, m5, m6, mval⟩ :=
      matUpdate_spec t.step t.momentum (net1.tensors.getD k default).data
        (g2.getD (k + 1) [])
        (t.network.matrices.getD k default, t.deltas.getD k default)
        du_in (hmdata k hk) du_dlen
    obtain ⟨c1, c2⟩ := wval k hk hk (by rw [show (t.network.matrices, t.deltas).2 = t.deltas from rfl, hdlen]; exact hk)
    rw [hbd, c2]
    exact ⟨by rw [← m2]; try exact rfl, by rw [← m4]; try exact rfl,
      by rw [← m6]; try exact rfl⟩
  have hmlen : (t.backward input expect).network.matrices.length = K := by
    rw [hbm, wlen1]
  have hgradbuf : ∀ j, j < t.network.tensors.length →
      ((t.backward input expect).gradients.getD j []).length =
        (t.gradients.getD j []).length := by
    intro j hj
    rw [hbg]
    by_cases hj0 : j = 0
    · subst hj0
      rw [hgdfix 0 (Or.inl rfl), hg1set, getD_set_ne _ _ _ (by omega)]
    · by_cases hjK : j = K
      · subst hjK
        rw [hgdfix K (Or.inr (by omega)), hg1set, getD_set_self _ _ _ (by rw [hglen, hL]; omega),
          hrow1, length_writeRange, hbase]
      · have h1j : 1 ≤ j := by omega
        have h2j : j ≤ K - 1 := by omega
        rw [hgdval j h1j h2j, gradRow, length_writeRange, hg1set,
          getD_set_ne _ _ _ (by omega)]
  refine ⟨?_, by rw [hbt]; exact hflen, ?_, hmlen, fun k hk => ⟨(hmatdims k hk).1, (hmatdims k hk).2.1⟩⟩
  · refine ⟨⟨?_, ?_, ?_, ?_, ?_, ?_, ?_⟩, ?_, ?_, ?_, ?_⟩
    · rw [hbt, hflen]; omega
    · rw [hmlen, hbt, hflen]; exact hmc
    · intro k hk
      rw [hbt] at hk ⊢
      rw [hflen] at hk
      rw [(hfjs k hk).1]
      exact hsz k hk
    · intro k hk
      rw [hmlen] at hk
      rw [hbt, (hfjs k (by omega)).1, (hmatdims k hk).1]
      exact hmins k hk
    · intro k hk
      rw [hmlen] at hk
      rw [hbt, (hfjs (k + 1) (by omega)).1, (hmatdims k hk).2.1]
      exact hmouts k hk
    · intro k hk
      rw [hmlen] at hk
      rw [(hmatdims k hk).2.2, (hmatdims k hk).1, (hmatdims k hk).2.1]
      exact hmdata k hk
    · rw [hbo, hbt]
      have h1 : net1.output.length = t.network.output.length := hfout
      have h2 : net1.tensors.length = t.network.tensors.length := hflen
      rw [h1, h2, (hfjs (t.network.tensors.length - 1) (by omega)).1]
      exact houtlen
    · rw [hbg, hgdlen, hg1len, hbt, hflen, hL]
    · intro j hj
      rw [hbt] at hj ⊢
      rw [hflen] at hj
      rw [hgradbuf j hj, (hfjs j hj).1]
      exact hgbuf j hj
    · rw [hbd, wlen2, hmlen]
      exact hdlen
    · intro k hk
      rw [hmlen] at hk
      obtain ⟨e1, e2, e3⟩ := hdeltadims k hk
      obtain ⟨f1, f2, f3⟩ := hdmat k hk
      have g1' := (hmatdims k hk).1
      have g2' := (hmatdims k hk).2.1
      refine ⟨by rw [e1, f1, g1'], by rw [e2, f2, g2'], ?_⟩
      rw [e3, f3, (hmatdims k hk).1, (hmatdims k hk).2.1]
  · intro j hj
    rw [hbt]
    exact ⟨(hfjs j hj).1, (hfjs j hj).2.2⟩

/-- One public call against a trainer: `forward(input)` (which mutates the
shared network in place) or `backward(input, expect)`. -/
inductive Op where
  | fwd : List ℝ → Op
  | bwd : List ℝ → List ℝ → Op

def applyOp (t : Trainer) : Op → Trainer
  | .fwd x => { t with network := (t.network.forward x).1 }
  | .bwd x e => t.backward x e

def runOps (t : Trainer) : List Op → Trainer
  | [] => t
  | op :: rest => runOps (applyOp t op) rest

/-- The documented shape discipline for one call: `input.length = inputs()`
and, for `backward`, `expect.length = outputs()`. -/
def OpWf (t : Trainer) : Op → Prop
  | .fwd x => x.length = t.network.inputs
  | .bwd x e => x.length = t.network.inputs ∧ e.length = t.network.outputs

theorem applyOp_preserves (t : Trainer) (op : Op) (hwf : t.Wf)
    (hK : 0 < t.network.matrices.length) (hop : OpWf t op) :
    (applyOp t op).Wf ∧
    (applyOp t op).network.tensors.length = t.network.tensors.length ∧
    (∀ j, j < t.network.tensors.length →
      ((applyOp t op).network.tensors.getD j default).data.length =
        (t.network.tensors.getD j default).data.length ∧
      ((applyOp t op).network.tensors.getD j default).data.getD
          ((t.network.tensors.getD j default).data.length - 1) 0 =
        (t.network.tensors.getD j default).data.getD
          ((t.network.tensors.getD j default).data.length - 1) 0) ∧
    (applyOp t op).network.matrices.length = t.network.matrices.length := by
  cases op with
  | fwd x =>
    obtain ⟨hfwf, hflen, hfjs, hfmat, hfout⟩ :=
      forward_preserves t.network x hwf.1 hop
    obtain ⟨hnwf, hglen, hgbuf, hdlen, hdmat⟩ := hwf
    have hA : (applyOp t (Op.fwd x)).network = (t.network.forward x).1 := rfl
    have hG : (applyOp t (Op.fwd x)).gradients = t.gradients := rfl
    have hD : (applyOp t (Op.fwd x)).deltas = t.deltas := rfl
    refine ⟨⟨?_, ?_, ?_, ?_, ?_⟩, ?_, ?_, ?_⟩
    · rw [hA]; exact hfwf
    · rw [hA, hG, hflen]; exact hglen
    · intro j hj
      rw [hA] at hj
      rw [hflen] at hj
      rw [hA, hG, (hfjs j hj).1]
      exact hgbuf j hj
    · rw [hA, hD, hfmat]; exact hdlen
    · intro k hk
      rw [hA, hfmat] at hk
      rw [hA, hD, hfmat]
      exact hdmat k hk
    · rw [hA]; exact hflen
    · intro j hj
      rw [hA]
      exact ⟨(hfjs j hj).1, (hfjs j hj).2.2⟩
    · rw [hA, hfmat]
  | bwd x e =>
    obtain ⟨hbwf, hblen, hbjs, hbmlen, hbdims⟩ :=
      backward_preserves t x e hwf hK hop.1
    exact ⟨hbwf, hblen, hbjs, hbmlen⟩

theorem runOps_preserves (ops : List Op) : ∀ (t : Trainer), t.Wf →
    0 < t.network.matrices.length → (∀ op ∈ ops, OpWf t op) →
    (runOps t ops).Wf ∧
    (runOps t ops).network.tensors.length = t.network.tensors.length ∧
    (∀ j, j < t.network.tensors.length →
      ((runOps t ops).network.tensors.getD j default).data.length =
        (t.network.tensors.getD j default).data.length ∧
      ((runOps t ops).network.tensors.getD j default).data.getD
          ((t.network.tensors.getD j default).data.length - 1) 0 =
        (t.network.tensors.getD j default).data.getD
          ((t.network.tensors.getD j default).data.length - 1) 0) ∧
    (runOps t ops).network.matrices.length = t.network.matrices.length := by
  induction ops with
  | nil =>
    intro t hwf hK _
    exact ⟨hwf, rfl, fun j hj => ⟨rfl, rfl⟩, rfl⟩
  | cons op rest ih =>
    intro t hwf hK hops
    obtain ⟨awf, alen, ajs, amlen⟩ :=
      applyOp_preserves t op hwf hK (hops op (List.mem_cons_self op rest))
    have hcounts : (applyOp t op).network.inputs = t.network.inputs ∧
        (applyOp t op).network.outputs = t.network.outputs := by
      constructor
      · show ((applyOp t op).network.tensors.getD 0 default).data.length - 1 = _
        rw [(ajs 0 (by obtain ⟨⟨hpos, _⟩, _⟩ := hwf; omega)).1]
        rfl
      · show ((applyOp t op).network.tensors.getD
            ((applyOp t op).network.tensors.length - 1) default).data.length - 1 = _
        rw [alen, (ajs (t.network.tensors.length - 1)
          (by obtain ⟨⟨hpos, _⟩, _⟩ := hwf; omega)).1]
        rfl
    have hops' : ∀ op2 ∈ rest, OpWf (applyOp t op) op2 := by
      intro op2 hop2
      have := hops op2 (List.mem_cons_of_mem op hop2)
      cases op2 with
      | fwd y =>
        show y.length = (applyOp t op).network.inputs
        rw [hcounts.1]; exact this
      | bwd y e2 =>
        exact ⟨by rw [hcounts.1]; exact this.1, by rw [hcounts.2]; exact this.2⟩
    obtain ⟨rwf, rlen, rjs, rmlen⟩ := ih (applyOp t op) awf (by omega) hops'
    refine ⟨rwf, by rw [show runOps t (op :: rest) = runOps (applyOp t op) rest from rfl, rlen, alen], ?_, by rw [show runOps t (op :: rest) = runOps (applyOp t op) rest from rfl, rmlen, amlen]⟩
    intro j hj
    have hj' : j < (applyOp t op).network.tensors.length := by rw [alen]; exact hj
    have e1 := (ajs j hj).1
    have e2 := (ajs j hj).2
    have f1 := (rjs j hj').1
    have f2 := (rjs j hj').2
    rw [e1] at f1 f2
    constructor
    · show ((runOps (applyOp t op) rest).network.tensors.getD j default).data.length = _
      exact f1
    · show ((runOps (applyOp t op) rest).network.tensors.getD j default).data.getD _ 0 = _
      rw [f2]
      exact e2

/-- The property claim C4 states: after any sequence of well-shaped
`forward`/`backward` calls, the last (bias) slot of every layer buffer still
holds its starting value, and the `Tensor` constructor put the configured
bias value there (so the slot stays at its construction-time bias). -/
def BiasSpec (t : Trainer) (ops : List Op) : Prop :=
  (∀ j, j < t.network.tensors.length →
    ((runOps t ops).network.tensors.getD j default).data.getD
        ((t.network.tensors.getD j default).data.length - 1) 0 =
      (t.network.tensors.getD j default).data.getD
        ((t.network.tensors.getD j default).data.length - 1) 0) ∧
  (∀ (units : ℤ) (name : String) (bias : ℝ) (tr : Tensor), 0 ≤ units →
    tensorMake units name bias = .ok tr →
    tr.data.getD (tr.data.length - 1) 0 = bias)

/-- **C4.** Bias immutability: for every well-formed trainer and every
sequence of calls with the documented vector lengths, every layer buffer's
bias slot keeps its construction-time value (default 1.0 via the `Tensor`
constructor's `bias` argument). -/
theorem claim4_bias_immutability (t : Trainer) (ops : List Op) (hwf : t.Wf)
    (hK : 0 < t.network.matrices.length) (hops : ∀ op ∈ ops, OpWf t op) :
    BiasSpec t ops := by
  constructor
  · intro j hj
    exact ((runOps_preserves ops t hwf hK hops).2.2.1 j hj).2
  · intro units name bias tr hu hmk
    have hshow : tensorMake units name bias =
        (float64ArrayNew (units + 1)).bind (fun data =>
          (select name).bind (fun act =>
            pure ⟨data.set (data.length - 1) bias, act⟩)) := rfl
    have hf : float64ArrayNew (units + 1) =
        .ok (List.replicate (units + 1).toNat 0) := by
      rw [float64ArrayNew, if_neg (by omega : ¬(units + 1 < 0))]
    have hn : 0 < (units + 1).toNat := by omega
    cases hsel : select name with
    | error e =>
      have hbad : tensorMake units name bias = .error e := by
        rw [hshow, hf, hsel]; rfl
      rw [hbad] at hmk
      simp at hmk
    | ok act =>
      have hgood : tensorMake units name bias =
          .ok ⟨(List.replicate (units + 1).toNat (0 : ℝ)).set
            ((List.replicate (units + 1).toNat (0 : ℝ)).length - 1) bias, act⟩ := by
        rw [hshow, hf, hsel]
        rfl
      rw [hgood] at hmk
      have htr : tr = ⟨(List.replicate (units + 1).toNat (0 : ℝ)).set
          ((List.replicate (units + 1).toNat (0 : ℝ)).length - 1) bias, act⟩ := by
        cases hmk
        rfl
      subst htr
      show ((List.replicate (units + 1).toNat (0 : ℝ)).set
          ((List.replicate (units + 1).toNat (0 : ℝ)).length - 1) bias).getD _ 0 = bias
      simp only [List.length_set, List.length_replicate]
      exact getD_set_self _ _ _ (by rw [List.length_replicate]; omega)

/-- The two concrete calls used by the C4 and C6 witnesses are well-shaped. -/
theorem exOps1_wf :
    ∀ op ∈ [Op.fwd [(1 : ℝ), 2], Op.bwd [(3 : ℝ), 4] [(5 : ℝ)]], OpWf exTrainer op := by
  intro op hop
  simp only [List.mem_cons, List.not_mem_nil, or_false] at hop
  rcases hop with h | h
  · subst h; exact rfl
  · subst h; exact ⟨rfl, rfl⟩

theorem exOps2_wf :
    ∀ op ∈ [Op.fwd [(6 : ℝ), 7], Op.bwd [(8 : ℝ), 9] [(2 : ℝ)]], OpWf exTrainer op := by
  intro op hop
  simp only [List.mem_cons, List.not_mem_nil, or_false] at hop
  rcases hop with h | h
  · subst h; exact rfl
  · subst h; exact ⟨rfl, rfl⟩

/-- Witness for C4 at `exTrainer` with one well-shaped `forward` and one
well-shaped `backward` call. -/
theorem claim4_witness :
    exTrainer.Wf ∧ 0 < exTrainer.network.matrices.length ∧
    (∀ op ∈ [Op.fwd [(1 : ℝ), 2], Op.bwd [(3 : ℝ), 4] [(5 : ℝ)]], OpWf exTrainer op) ∧
    BiasSpec exTrainer [Op.fwd [(1 : ℝ), 2], Op.bwd [(3 : ℝ), 4] [(5 : ℝ)]] :=
  ⟨exTrainer_wf, by decide, exOps1_wf,
   claim4_bias_immutability exTrainer [Op.fwd [(1 : ℝ), 2], Op.bwd [(3 : ℝ), 4] [(5 : ℝ)]]
     exTrainer_wf (by decide) exOps1_wf⟩

/-- The property claim C6 states: the shape invariant
`matrix[k].inputs = layer[k].size` and
`matrix[k].outputs = layer[k+1].size - 1` holds after any sequence of calls
(nothing is ever resized), and the `Network` constructor establishes it. -/
def ShapeSpec (t : Trainer) (ops : List Op) : Prop :=
  ((runOps t ops).network.matrices.length =
      (runOps t ops).network.tensors.length - 1 ∧
    (∀ k, k < (runOps t ops).network.matrices.length →
      ((runOps t ops).network.matrices.getD k default).inputs =
        ((runOps t ops).network.tensors.getD k default).data.length ∧
      ((runOps t ops).network.matrices.getD k default).outputs =
        ((runOps t ops).network.tensors.getD (k + 1) default).data.length - 1)) ∧
  (∀ (ts : List Tensor) (outId : ℕ),
    (networkOfTensors ts outId).matrices.length = ts.length - 1 ∧
    (∀ k, k < ts.length - 1 →
      ((networkOfTensors ts outId).matrices.getD k default).inputs =
        (ts.getD k default).data.length ∧
      ((networkOfTensors ts outId).matrices.getD k default).outputs =
        (ts.getD (k + 1) default).data.length - 1))

theorem getD_map_range {α : Type} [Inhabited α] (f : ℕ → α) {n k : ℕ} (hk : k < n) :
    (((List.range n).map f).getD k default) = f k := by
  rw [List.getD_eq_getElem?_getD, List.getElem?_map, List.getElem?_range hk]
  rfl

/-- **C6.** Shape invariant: established by the `Network` constructor and
preserved by every well-shaped `forward`/`backward` sequence. -/
theorem claim6_shape_invariant (t : Trainer) (ops : List Op) (hwf : t.Wf)
    (hK : 0 < t.network.matrices.length) (hops : ∀ op ∈ ops, OpWf t op) :
    ShapeSpec t ops := by
  constructor
  · obtain ⟨⟨hpos, hmc, hsz, hmins, hmouts, hmdata, houtlen⟩, _⟩ :=
      (runOps_preserves ops t hwf hK hops).1
    exact ⟨hmc, fun k hk => ⟨hmins k hk, hmouts k hk⟩⟩
  · intro ts outId
    have hmat : (networkOfTensors ts outId).matrices =
        (List.range (ts.length - 1)).map (fun i =>
          matrixNew (ts.getD i default).data.length
            ((ts.getD (i + 1) default).data.length - 1)) := rfl
    constructor
    · rw [hmat, List.length_map, List.length_range]
    · intro k hk
      rw [hmat, getD_map_range _ hk]
      exact ⟨rfl, rfl⟩

/-- Witness for C6 at `exTrainer` with one `forward` and one `backward`. -/
theorem claim6_witness :
    exTrainer.Wf ∧ 0 < exTrainer.network.matrices.length ∧
    (∀ op ∈ [Op.fwd [(6 : ℝ), 7], Op.bwd [(8 : ℝ), 9] [(2 : ℝ)]], OpWf exTrainer op) ∧
    ShapeSpec exTrainer [Op.fwd [(6 : ℝ), 7], Op.bwd [(8 : ℝ), 9] [(2 : ℝ)]] :=
  ⟨exTrainer_wf, by decide, exOps2_wf,
   claim6_shape_invariant exTrainer [Op.fwd [(6 : ℝ), 7], Op.bwd [(8 : ℝ), 9] [(2 : ℝ)]]
     exTrainer_wf (by decide) exOps2_wf⟩

end Neuron
